import Mathlib

/-!
# Mapping agent: the stream-to-request bridge of `sensoranalytics/mapping-agent/main.go`

The program is three goroutines around one buffered channel:

* `main` checks the flags, fetches the reference data (`syncstaticdata`), starts
  `servecontent` and `consume`, and waits on the wait group;
* `consume` connects to the broker, subscribes to partition 0 and then, forever,
  receives a message, decodes it with `frommsg` and sends it on `tqueue`;
* the `/data` handler of `servecontent` receives one value from `tqueue` and writes
  it as JSON.

The embedding is an interleaving semantics: a state `Sys`, the atomic actions of the
goroutines and of their environment (`Action`), a guarded `step`, and `exec`, which
runs a schedule. An action whose guard fails (a blocked channel operation, a
goroutine that is elsewhere) leaves the state as it is. Every effect the specification
speaks about is appended to `Sys.trace` when it happens.
-/

namespace MappingAgent

/-! ## Data -/

/-- Go `error` values, by their message. -/
abbrev Err := String

/-- A byte slice. -/
abbrev Bytes := List Nat

/-- A Go string is an immutable byte sequence. -/
abbrev GoString := List Nat

/-- The conversion `string(b)` of a byte slice: the same bytes. -/
def goString (b : Bytes) : GoString := b

/-- The part of `sarama.ConsumerMessage` that `consume` reads. -/
structure ConsumerMessage where
  Value : Bytes
deriving DecidableEq, Repr

/-- The parts of an `http.Request` a handler could look at. -/
structure Request where
  method : String
  rawQuery : String
  body : Bytes
deriving DecidableEq, Repr

/-- The members of package `main` that `main.go` uses and that are declared in its
sibling files, taken as parameters: the decoder `frommsg`, a function from the raw
payload to a record, and the JSON encoding of the `TrafficData` type, as
`json.Encoder.Encode` writes it for a record. -/
structure Pkg (T : Type) where
  frommsg : GoString → T
  jsonEncode : T → Bytes

/-- The capacity given to `make(chan TrafficData, 10)` in `init`. -/
def tqueueCap : Nat := 10

/-! ## The response writer of `net/http` -/

/-- An `http.ResponseWriter`: the header map, the status line once it has been
written, the header as it was sent with the status line, and the body so far. -/
structure ResponseWriter where
  header : List (String × String)
  status : Option Nat
  sent : List (String × String)
  body : Bytes
deriving DecidableEq, Repr

/-- A fresh response writer, as the server hands it to a handler. -/
def ResponseWriter.fresh : ResponseWriter :=
  { header := [], status := none, sent := [], body := [] }

/-- The call `w.Header().Set(k, v)`: replaces the values of key `k`. -/
def ResponseWriter.set (w : ResponseWriter) (k v : String) : ResponseWriter :=
  { w with header := w.header.filter (fun p => p.1 ≠ k) ++ [(k, v)] }

/-- The call `w.Write(b)`: the first write sends status 200 and the current header. -/
def ResponseWriter.write (w : ResponseWriter) (b : Bytes) : ResponseWriter :=
  match w.status with
  | none => { w with status := some 200, sent := w.header, body := w.body ++ b }
  | some _ => { w with body := w.body ++ b }

/-- What the client receives. -/
structure Response where
  status : Nat
  header : List (String × String)
  body : Bytes
deriving DecidableEq, Repr

/-- The server finishes a response when the handler returns: a handler that wrote
nothing still answers 200 with the header it set. -/
def ResponseWriter.finish (w : ResponseWriter) : Response :=
  match w.status with
  | none => { status := 200, header := w.header, body := w.body }
  | some c => { status := c, header := w.sent, body := w.body }

/-- Lines 62-64 of the `/data` handler, for the record `t` it took from `tqueue`.
The request is an argument the body never reads. -/
def dataHandler {T : Type} (pkg : Pkg T) (_r : Request) (t : T) : Response :=
  let w := ResponseWriter.fresh
  let w := w.set "Access-Control-Allow-Origin" "*"
  let w := w.set "Content-Type" "application/json"
  let w := w.write (pkg.jsonEncode t)
  w.finish

/-! ## Events -/

/-- The observable effects of the program, in the order they happen. -/
inductive Event (T : Type) where
  | about
  | usage
  | logInfo (func : String)
  | logDebug (func : String)
  | logError (func : String) (e : Err)
  | logFatal (func : String) (msg : String)
  | minioNew
  | bucketExists (bucket : String)
  | fGetObject (bucket object path : String)
  | osOpen (path : String)
  | jsonDecode
  | osRemove (path : String)
  | goServecontent
  | wgAdd (n : Nat)
  | goConsume (topic : String)
  | wgWait
  | listenAndServe (addr : String)
  | newConsumer (broker : String) (err : Option Err)
  | consumePartition (topic : String) (partition : Nat) (err : Option Err)
  | consumerClose
  | partitionConsumerClose
  | wgDone
  | message (m : ConsumerMessage)
  | put (t : T)
  | take (req : Nat) (t : T)
  | respond (req : Nat) (resp : Response)
  | exit (code : Nat)
deriving DecidableEq, Repr

/-! ## Startup: `syncstaticdata` and `main` -/

/-- The command line as `init` parsed it. -/
structure Flags where
  version : Bool
  broker : String
deriving DecidableEq, Repr

/-- What the object store and the file system answer during `syncstaticdata`. -/
structure ObjectStore where
  newErr : Option Err
  bucketFound : Bool
  bucketErr : Option Err
  fgetErr : Option Err
  openErr : Option Err
  decodeErr : Option Err
deriving DecidableEq, Repr

/-- The result of `json.NewDecoder(f).Decode(&mtd)` at line 128. The error of `os.Open`
is discarded at line 126; reading from the nil file it leaves behind fails. -/
def ObjectStore.decodeResult (o : ObjectStore) : Option Err :=
  match o.openErr with
  | some _ => some "invalid argument"
  | none => o.decodeErr

/-- The text of `fmt.Sprintf("%s", err)`. -/
def sprintErr : Option Err → String
  | some e => e
  | none => "%!s(<nil>)"

/-- The function `syncstaticdata`: the events it causes, and the exit code when it ends
the process. A `Fatal` log entry calls `os.Exit(1)`: nothing after it runs, and neither
do the calls deferred so far. On a normal return the deferred calls run. -/
def syncstaticdata {T : Type} (o : ObjectStore) : List (Event T) × Option Nat :=
  let t : List (Event T) := [.logInfo "syncstaticdata", .minioNew]
  match o.newErr with
  | some e => (t ++ [.logFatal "syncstaticdata" (e ++ " ")], some 1)
  | none =>
    let t := t ++ [.bucketExists "aarhus"]
    if o.bucketErr.isSome || !o.bucketFound then
      (t ++ [.logFatal "syncstaticdata" (sprintErr o.bucketErr)], some 1)
    else
      let t := t ++ [.fGetObject "aarhus" "route_metrics_data.json" "./rmd.json"]
      match o.fgetErr with
      | some e => (t ++ [.logFatal "syncstaticdata" e], some 1)
      | none =>
        let t := t ++ [.logInfo "syncstaticdata", .osOpen "./rmd.json"]
        let deferred : List (Event T) := [.osRemove "./rmd.json"]
        let t := t ++ [.jsonDecode]
        match o.decodeResult with
        | some e => (t ++ [.logFatal "frommsg" e], some 1)
        | none => (t ++ [.logInfo "syncstaticdata"] ++ deferred, none)

/-! ## The concurrent system -/

/-- The calls `consume` defers. -/
inductive Deferred where
  | wgDone
  | consumerClose
  | partitionConsumerClose
deriving DecidableEq, Repr

/-- Where the `consume` goroutine is. -/
inductive ConsumePc (T : Type) where
  | notStarted
  | start
  | subscribe
  | recv
  | send (t : T)
  | returning
  | done
deriving DecidableEq, Repr

/-- Where the `servecontent` goroutine is. -/
inductive ServerPc where
  | notStarted
  | starting
  | listening
  | returned
deriving DecidableEq, Repr

/-- A `/data` request: blocked at `<-tqueue`, or answered. -/
inductive Handler (T : Type) where
  | waiting (r : Request)
  | served (r : Request) (t : T) (resp : Response)
deriving DecidableEq, Repr

/-- The state of the process. `proc` is the exit code once the process has ended;
`defers` is the stack of deferred calls of `consume`, the next one to run first. -/
structure Sys (T : Type) where
  proc : Option Nat
  broker : String
  topic : String
  wg : Int
  tqueue : List T
  server : ServerPc
  consumer : ConsumePc T
  defers : List Deferred
  handlers : List (Handler T)
  trace : List (Event T)
deriving DecidableEq, Repr

/-- A process that ended during startup with the given events and exit code. -/
def Sys.ended {T : Type} (flags : Flags) (t : List (Event T)) (code : Nat) : Sys T :=
  { proc := some code, broker := flags.broker, topic := "", wg := 0, tqueue := [],
    server := .notStarted, consumer := .notStarted, defers := [], handlers := [],
    trace := t ++ [.exit code] }

/-- The function `main`, up to the point where it blocks in `wg.Wait()` or the process
ends. -/
def main {T : Type} (flags : Flags) (o : ObjectStore) : Sys T :=
  if flags.version then
    Sys.ended flags [.about] 0
  else if flags.broker = "" then
    Sys.ended flags [.usage] 1
  else
    match syncstaticdata o with
    | (t, some code) => Sys.ended flags t code
    | (t, none) =>
      { proc := none, broker := flags.broker, topic := "trafficdata", wg := 1,
        tqueue := [], server := .starting, consumer := .start, defers := [],
        handlers := [],
        trace := t ++ [.goServecontent, .wgAdd 1, .goConsume "trafficdata", .wgWait] }

/-- The atomic actions of the goroutines and of their environment. -/
inductive Action where
  | listen (err : Option Err)
  | request (r : Request)
  | take (i : Nat)
  | connect (err : Option Err)
  | subscribe (err : Option Err)
  | message (m : ConsumerMessage)
  | put
  | runDeferred (err : Option Err)
  | wake
deriving DecidableEq, Repr

/-- The events of logging a returned error, if there is one. -/
def logErr {T : Type} : Option Err → List (Event T)
  | some e => [.logError "consume" e]
  | none => []

/-- One deferred call of `consume`, with the error its `Close` returns. -/
def runDefer {T : Type} (s : Sys T) (d : Deferred) (err : Option Err) : Sys T :=
  match d with
  | .wgDone => { s with wg := s.wg - 1, trace := s.trace ++ [.wgDone] }
  | .consumerClose => { s with trace := s.trace ++ [.consumerClose] ++ logErr err }
  | .partitionConsumerClose =>
    { s with trace := s.trace ++ [.partitionConsumerClose] ++ logErr err }

/-- Where `servecontent` is after `http.ListenAndServe` was called: serving, or back
from the call with its error, which line 67 discards. -/
def listenResult : Option Err → ServerPc
  | some _ => .returned
  | none => .listening

/-- Where `consume` is after a deferred call ran: done when none is left. -/
def afterDeferred {T : Type} : List Deferred → ConsumePc T
  | [] => .done
  | _ :: _ => .returning

/-- One action, when its guard holds.

* `listen`: lines 66-67, `ListenAndServe` binds the port or returns its error.
* `request`: a `/data` request arrives and its handler blocks at line 60.
* `take i`: the handler of request `i` receives the head of `tqueue` (line 60) and
  writes its response (lines 61-64).
* `connect`: lines 74-83, `defer wg.Done()` and `sarama.NewConsumer`.
* `subscribe`: lines 85-94, `ConsumePartition(topic, 0, OffsetNewest)`.
* `message m`: lines 97-99, a message arrives and is decoded.
* `put`: lines 100-102, the send on `tqueue` completes.
* `runDeferred`: `consume` is returning and runs its next deferred call.
* `wake`: `wg.Wait()` returns, `main` returns and the process ends with code 0. -/
def step {T : Type} (pkg : Pkg T) (s : Sys T) (a : Action) : Option (Sys T) :=
  match s.proc with
  | some _ => none
  | none =>
    match a with
    | .listen err =>
      match s.server with
      | .starting =>
        some { s with
          server := listenResult err,
          trace := s.trace ++ [.logInfo "servecontent", .listenAndServe ":8080"] }
      | _ => none
    | .request r =>
      match s.server with
      | .listening => some { s with handlers := s.handlers ++ [.waiting r] }
      | _ => none
    | .take i =>
      match s.handlers[i]?, s.tqueue with
      | some (.waiting r), t :: rest =>
        some { s with
          tqueue := rest,
          handlers := s.handlers.set i (.served r t (dataHandler pkg r t)),
          trace := s.trace ++
            [.take i t, .logInfo "servecontent", .respond i (dataHandler pkg r t)] }
      | _, _ => none
    | .connect err =>
      match s.consumer with
      | .start =>
        match err with
        | some e =>
          some { s with
            consumer := .returning, defers := [.wgDone],
            trace := s.trace ++ [.newConsumer s.broker (some e), .logError "consume" e] }
        | none =>
          some { s with
            consumer := .subscribe, defers := [.consumerClose, .wgDone],
            trace := s.trace ++ [.newConsumer s.broker none] }
      | _ => none
    | .subscribe err =>
      match s.consumer with
      | .subscribe =>
        match err with
        | some e =>
          some { s with
            consumer := .returning,
            trace := s.trace ++
              [.consumePartition s.topic 0 (some e), .logError "consume" e] }
        | none =>
          some { s with
            consumer := .recv, defers := .partitionConsumerClose :: s.defers,
            trace := s.trace ++ [.consumePartition s.topic 0 none] }
      | _ => none
    | .message m =>
      match s.consumer with
      | .recv =>
        some { s with
          consumer := .send (pkg.frommsg (goString m.Value)),
          trace := s.trace ++ [.message m] }
      | _ => none
    | .put =>
      match s.consumer with
      | .send t =>
        if s.tqueue.length < tqueueCap then
          some { s with
            tqueue := s.tqueue ++ [t], consumer := .recv,
            trace := s.trace ++ [.put t, .logDebug "consume", .logInfo "servecontent"] }
        else none
      | _ => none
    | .runDeferred err =>
      match s.consumer, s.defers with
      | .returning, d :: ds =>
        some { runDefer s d err with defers := ds, consumer := afterDeferred ds }
      | _, _ => none
    | .wake =>
      if s.wg = 0 then some { s with proc := some 0, trace := s.trace ++ [.exit 0] }
      else none

/-- An action that is not enabled leaves the state as it is. -/
def next {T : Type} (pkg : Pkg T) (s : Sys T) (a : Action) : Sys T :=
  match step pkg s a with
  | some s' => s'
  | none => s

/-- Runs a schedule from a state. -/
def exec {T : Type} (pkg : Pkg T) (s : Sys T) : List Action → Sys T
  | [] => s
  | a :: as => exec pkg (next pkg s a) as

/-- The process from its start: `main`, then the schedule. -/
def run {T : Type} (pkg : Pkg T) (flags : Flags) (o : ObjectStore) (acts : List Action) :
    Sys T :=
  exec pkg (main flags o) acts

/-! ## Projections of the trace -/

/-- The records sent on `tqueue`, in order. -/
def putsOf {T : Type} (tr : List (Event T)) : List T :=
  tr.filterMap (fun e => match e with | .put t => some t | _ => none)

/-- The records received from `tqueue` by the handlers, in order. -/
def takesOf {T : Type} (tr : List (Event T)) : List T :=
  tr.filterMap (fun e => match e with | .take _ t => some t | _ => none)

/-- The requests whose handler received a record, in order. -/
def takersOf {T : Type} (tr : List (Event T)) : List Nat :=
  tr.filterMap (fun e => match e with | .take i _ => some i | _ => none)

/-- The messages `consume` received from the partition, in order. -/
def messagesOf {T : Type} (tr : List (Event T)) : List ConsumerMessage :=
  tr.filterMap (fun e => match e with | .message m => some m | _ => none)

/-- The results of the calls of `sarama.NewConsumer`, in order. -/
def connectsOf {T : Type} (tr : List (Event T)) : List (Option Err) :=
  tr.filterMap (fun e => match e with | .newConsumer _ r => some r | _ => none)

/-- The results of the calls of `ConsumePartition`, in order. -/
def subscribesOf {T : Type} (tr : List (Event T)) : List (Option Err) :=
  tr.filterMap (fun e => match e with | .consumePartition _ _ r => some r | _ => none)

/-- The deferred calls of `consume` that ran, in order. -/
def teardownOf {T : Type} (tr : List (Event T)) : List Deferred :=
  tr.filterMap (fun e => match e with
    | .wgDone => some .wgDone
    | .consumerClose => some .consumerClose
    | .partitionConsumerClose => some .partitionConsumerClose
    | _ => none)

/-- The record `consume` holds between decoding it and sending it. -/
def pendingOf {T : Type} : ConsumePc T → List T
  | .send t => [t]
  | _ => []

/-- Whether `consume` is in its message loop. -/
def streaming {T : Type} : ConsumePc T → Bool
  | .recv => true
  | .send _ => true
  | _ => false

/-- A package instance on numbers, for concrete runs: a record is the sum of its
payload bytes and is encoded as one byte. -/
def natPkg : Pkg Nat :=
  { frommsg := fun s => s.sum, jsonEncode := fun t => [t] }

/-- Flags that pass the checks of `main`. -/
def okFlags : Flags := { version := false, broker := "broker-1.kafka.mesos:9382" }

/-- An object store on which every step of the fetch succeeds. -/
def okStore : ObjectStore :=
  { newErr := none, bucketFound := true, bucketErr := none, fgetErr := none,
    openErr := none, decodeErr := none }

/-! ## Invariants -/

/-- The two ways `consume` fails, as the trace and the deferred calls still to run
show them: the connection failed and only `wg.Done` was deferred, or the subscription
failed and `consumer.Close` and `wg.Done` were deferred. -/
def FailedShape {T : Type} (tr : List (Event T)) (defers : List Deferred) : Prop :=
  (∃ e, connectsOf tr = [some e] ∧ subscribesOf tr = [] ∧
      .logError "consume" e ∈ tr ∧ teardownOf tr ++ defers = [.wgDone]) ∨
  (∃ e, connectsOf tr = [none] ∧ subscribesOf tr = [some e] ∧
      .logError "consume" e ∈ tr ∧ teardownOf tr ++ defers = [.consumerClose, .wgDone])

/-- The control invariant of `consume`, by where the goroutine is. -/
def CInv {T : Type} (s : Sys T) : Prop :=
  match s.consumer with
  | .notStarted => s.proc ≠ none ∧ s.defers = [] ∧ s.server = .notStarted ∧
      s.handlers = [] ∧
      connectsOf s.trace = [] ∧ subscribesOf s.trace = [] ∧ teardownOf s.trace = [] ∧
      messagesOf s.trace = []
  | .start => s.proc = none ∧ s.wg = 1 ∧ s.defers = [] ∧ connectsOf s.trace = [] ∧
      subscribesOf s.trace = [] ∧ teardownOf s.trace = [] ∧ messagesOf s.trace = []
  | .subscribe => s.proc = none ∧ s.wg = 1 ∧ s.defers = [.consumerClose, .wgDone] ∧
      connectsOf s.trace = [none] ∧ subscribesOf s.trace = [] ∧ teardownOf s.trace = [] ∧
      messagesOf s.trace = []
  | .recv => s.proc = none ∧ s.wg = 1 ∧
      s.defers = [.partitionConsumerClose, .consumerClose, .wgDone] ∧
      connectsOf s.trace = [none] ∧ subscribesOf s.trace = [none] ∧ teardownOf s.trace = []
  | .send _ => s.proc = none ∧ s.wg = 1 ∧
      s.defers = [.partitionConsumerClose, .consumerClose, .wgDone] ∧
      connectsOf s.trace = [none] ∧ subscribesOf s.trace = [none] ∧ teardownOf s.trace = []
  | .returning => s.proc = none ∧ s.wg = 1 ∧ s.defers ≠ [] ∧ messagesOf s.trace = [] ∧
      FailedShape s.trace s.defers
  | .done => (s.proc = none ∨ s.proc = some 0) ∧ s.wg = 0 ∧ s.defers = [] ∧
      messagesOf s.trace = [] ∧ FailedShape s.trace s.defers

structure QInv {T : Type} (pkg : Pkg T) (s : Sys T) : Prop where
  fifo : putsOf s.trace = takesOf s.trace ++ s.tqueue
  bound : s.tqueue.length ≤ tqueueCap
  nodup : (takersOf s.trace).Nodup
  served : ∀ i, i ∈ takersOf s.trace → ∃ r t resp, s.handlers[i]? = some (.served r t resp)
  answered : ∀ i t, .take i t ∈ s.trace → ∃ r, .respond i (dataHandler pkg r t) ∈ s.trace
  responses : ∀ i resp, .respond i resp ∈ s.trace →
    ∃ r t, .take i t ∈ s.trace ∧ resp = dataHandler pkg r t

/-- Every message is decoded and sent, in order; at most the last one is pending. -/
def DInv {T : Type} (pkg : Pkg T) (s : Sys T) : Prop :=
  (messagesOf s.trace).map (fun m => pkg.frommsg (goString m.Value)) =
    putsOf s.trace ++ pendingOf s.consumer

/-- The invariant of the reachable states. -/
def Inv {T : Type} (pkg : Pkg T) (s : Sys T) : Prop :=
  QInv pkg s ∧ DInv pkg s ∧ CInv s

/-- The states the process can be in: `main`, then any schedule. -/
def Reachable {T : Type} (pkg : Pkg T) (s : Sys T) : Prop :=
  ∃ flags o acts, run pkg flags o acts = s

/-! ## Concrete runs -/

/-- A plain `GET /data`. -/
def getRequest : Request := { method := "GET", rawQuery := "", body := [] }

/-- Three messages and two requests, interleaved. -/
def fifoSchedule : List Action :=
  [.connect none, .listen none, .request getRequest, .subscribe none, .message ⟨[1, 2]⟩,
   .put, .message ⟨[4]⟩, .request getRequest, .take 1, .put, .message ⟨[5, 6]⟩, .put,
   .take 0]

/-- Ten messages fill the channel, an eleventh is decoded, and two requests wait. -/
def fullSchedule : List Action :=
  [.listen none, .connect none, .subscribe none] ++
  (List.replicate 10 [Action.message ⟨[1]⟩, Action.put]).flatten ++
  [.message ⟨[2]⟩, .request getRequest, .request getRequest]

/-- The schedule that receives the messages `ms` one by one, each sent on the channel
and taken by a request of its own, the `k`-th request onward. -/
def feedFrom (k : Nat) : List ConsumerMessage → List Action
  | [] => []
  | m :: ms => [.message m, .put, .request getRequest, .take k] ++ feedFrom (k + 1) ms

/-- A run that starts the server and the consumer and then feeds the messages `ms`. -/
def feed (ms : List ConsumerMessage) : List Action :=
  [.listen none, .connect none, .subscribe none] ++ feedFrom 0 ms

/-- The connection to the broker fails. -/
def connectFails : List Action :=
  [.listen none, .connect (some "dial tcp: connection refused"), .runDeferred none]

/-- The connection succeeds and the subscription fails. -/
def subscribeFails : List Action :=
  [.listen none, .connect none, .subscribe (some "unknown topic or partition"),
   .runDeferred none, .runDeferred none]

/-- Whether a step of the reference-data fetch fails: the client cannot be created, the
bucket check fails or finds no bucket, the download fails, or the file does not
decode. -/
def fetchFails (o : ObjectStore) : Bool :=
  o.newErr.isSome || o.bucketErr.isSome || !o.bucketFound || o.fgetErr.isSome ||
    o.decodeResult.isSome

/-- An object store whose bucket does not exist. -/
def noBucket : ObjectStore := { okStore with bucketFound := false }

/-- An object store whose object downloads but is not valid JSON. -/
def badJson : ObjectStore :=
  { okStore with decodeErr := some "unexpected end of JSON input" }

/-! # Theorems -/

/-! ## The projections of the trace -/

@[simp]
theorem putsOf_nil {T : Type} : putsOf ([] : List (Event T)) = [] := rfl

@[simp]
theorem putsOf_append {T : Type} (tr tr' : List (Event T)) :
    putsOf (tr ++ tr') = putsOf tr ++ putsOf tr' := by
  simp [putsOf]

@[simp]
theorem putsOf_cons {T : Type} (e : Event T) (tr : List (Event T)) :
    putsOf (e :: tr) = (match e with | .put t => [t] | _ => []) ++ putsOf tr := by
  cases e <;> rfl

@[simp]
theorem takesOf_nil {T : Type} : takesOf ([] : List (Event T)) = [] := rfl

@[simp]
theorem takesOf_append {T : Type} (tr tr' : List (Event T)) :
    takesOf (tr ++ tr') = takesOf tr ++ takesOf tr' := by
  simp [takesOf]

@[simp]
theorem takesOf_cons {T : Type} (e : Event T) (tr : List (Event T)) :
    takesOf (e :: tr) = (match e with | .take _ t => [t] | _ => []) ++ takesOf tr := by
  cases e <;> rfl

@[simp]
theorem takersOf_nil {T : Type} : takersOf ([] : List (Event T)) = [] := rfl

@[simp]
theorem takersOf_append {T : Type} (tr tr' : List (Event T)) :
    takersOf (tr ++ tr') = takersOf tr ++ takersOf tr' := by
  simp [takersOf]

@[simp]
theorem takersOf_cons {T : Type} (e : Event T) (tr : List (Event T)) :
    takersOf (e :: tr) = (match e with | .take i _ => [i] | _ => []) ++ takersOf tr := by
  cases e <;> rfl

@[simp]
theorem messagesOf_nil {T : Type} : messagesOf ([] : List (Event T)) = [] := rfl

@[simp]
theorem messagesOf_append {T : Type} (tr tr' : List (Event T)) :
    messagesOf (tr ++ tr') = messagesOf tr ++ messagesOf tr' := by
  simp [messagesOf]

@[simp]
theorem messagesOf_cons {T : Type} (e : Event T) (tr : List (Event T)) :
    messagesOf (e :: tr) = (match e with | .message m => [m] | _ => []) ++ messagesOf tr := by
  cases e <;> rfl

@[simp]
theorem connectsOf_nil {T : Type} : connectsOf ([] : List (Event T)) = [] := rfl

@[simp]
theorem connectsOf_append {T : Type} (tr tr' : List (Event T)) :
    connectsOf (tr ++ tr') = connectsOf tr ++ connectsOf tr' := by
  simp [connectsOf]

@[simp]
theorem connectsOf_cons {T : Type} (e : Event T) (tr : List (Event T)) :
    connectsOf (e :: tr) = (match e with | .newConsumer _ r => [r] | _ => []) ++ connectsOf tr := by
  cases e <;> rfl

@[simp]
theorem subscribesOf_nil {T : Type} : subscribesOf ([] : List (Event T)) = [] := rfl

@[simp]
theorem subscribesOf_append {T : Type} (tr tr' : List (Event T)) :
    subscribesOf (tr ++ tr') = subscribesOf tr ++ subscribesOf tr' := by
  simp [subscribesOf]

@[simp]
theorem subscribesOf_cons {T : Type} (e : Event T) (tr : List (Event T)) :
    subscribesOf (e :: tr) = (match e with | .consumePartition _ _ r => [r] | _ => []) ++ subscribesOf tr := by
  cases e <;> rfl

@[simp]
theorem teardownOf_nil {T : Type} : teardownOf ([] : List (Event T)) = [] := rfl

@[simp]
theorem teardownOf_append {T : Type} (tr tr' : List (Event T)) :
    teardownOf (tr ++ tr') = teardownOf tr ++ teardownOf tr' := by
  simp [teardownOf]

@[simp]
theorem teardownOf_cons {T : Type} (e : Event T) (tr : List (Event T)) :
    teardownOf (e :: tr) =
      (match e with
        | .wgDone => [.wgDone]
        | .consumerClose => [.consumerClose]
        | .partitionConsumerClose => [.partitionConsumerClose]
        | _ => []) ++ teardownOf tr := by
  cases e <;> rfl

/-! ## What an enabled action does -/

theorem step_proc {T : Type} (pkg : Pkg T)
    {s s' : Sys T} {a : Action} (h : step pkg s a = some s') :
    s.proc = none := by
  unfold step at h
  split at h
  · simp at h
  · assumption

theorem step_listen {T : Type} (pkg : Pkg T) {s s' : Sys T} {err : Option Err}
    (h : step pkg s (.listen err) = some s') :
    s.server = .starting ∧ s' = { s with
      server := listenResult err,
      trace := s.trace ++ [.logInfo "servecontent", .listenAndServe ":8080"] } := by
  unfold step at h
  split at h
  · simp at h
  · simp only at h
    split at h
    · exact ⟨by assumption, by simpa using h.symm⟩
    · simp at h

theorem step_request {T : Type} (pkg : Pkg T) {s s' : Sys T} {r : Request}
    (h : step pkg s (.request r) = some s') :
    s.server = .listening ∧ s' = { s with handlers := s.handlers ++ [.waiting r] } := by
  unfold step at h
  split at h
  · simp at h
  · simp only at h
    split at h
    · exact ⟨by assumption, by simpa using h.symm⟩
    · simp at h

theorem step_take {T : Type} (pkg : Pkg T) {s s' : Sys T} {i : Nat}
    (h : step pkg s (.take i) = some s') :
    ∃ r t rest, s.handlers[i]? = some (.waiting r) ∧ s.tqueue = t :: rest ∧
      s' = { s with
          tqueue := rest,
          handlers := s.handlers.set i (.served r t (dataHandler pkg r t)),
          trace := s.trace ++
            [.take i t, .logInfo "servecontent", .respond i (dataHandler pkg r t)] } := by
  unfold step at h
  split at h
  · simp at h
  · simp only at h
    split at h
    · rename_i r t rest h1 h2
      exact ⟨r, t, rest, h1, h2, by simpa using h.symm⟩
    · simp at h

theorem step_connect {T : Type} (pkg : Pkg T) {s s' : Sys T} {err : Option Err}
    (h : step pkg s (.connect err) = some s') :
    s.consumer = .start ∧
      ((∃ e, err = some e ∧ s' = { s with
            consumer := .returning, defers := [.wgDone],
            trace := s.trace ++ [.newConsumer s.broker (some e), .logError "consume" e] }) ∨
       (err = none ∧ s' = { s with
            consumer := .subscribe, defers := [.consumerClose, .wgDone],
            trace := s.trace ++ [.newConsumer s.broker none] })) := by
  unfold step at h
  split at h
  · simp at h
  · simp only at h
    split at h
    · refine ⟨by assumption, ?_⟩
      split at h
      · left; exact ⟨_, rfl, by simpa using h.symm⟩
      · right; exact ⟨rfl, by simpa using h.symm⟩
    · simp at h

theorem step_subscribe {T : Type} (pkg : Pkg T) {s s' : Sys T} {err : Option Err}
    (h : step pkg s (.subscribe err) = some s') :
    s.consumer = .subscribe ∧
      ((∃ e, err = some e ∧ s' = { s with
            consumer := .returning,
            trace := s.trace ++
              [.consumePartition s.topic 0 (some e), .logError "consume" e] }) ∨
       (err = none ∧ s' = { s with
            consumer := .recv, defers := .partitionConsumerClose :: s.defers,
            trace := s.trace ++ [.consumePartition s.topic 0 none] })) := by
  unfold step at h
  split at h
  · simp at h
  · simp only at h
    split at h
    · refine ⟨by assumption, ?_⟩
      split at h
      · left; exact ⟨_, rfl, by simpa using h.symm⟩
      · right; exact ⟨rfl, by simpa using h.symm⟩
    · simp at h

theorem step_message {T : Type} (pkg : Pkg T) {s s' : Sys T} {m : ConsumerMessage}
    (h : step pkg s (.message m) = some s') :
    s.consumer = .recv ∧ s' = { s with
          consumer := .send (pkg.frommsg (goString m.Value)),
          trace := s.trace ++ [.message m] } := by
  unfold step at h
  split at h
  · simp at h
  · simp only at h
    split at h
    · exact ⟨by assumption, by simpa using h.symm⟩
    · simp at h

theorem step_put {T : Type} (pkg : Pkg T) {s s' : Sys T}
    (h : step pkg s .put = some s') :
    ∃ t, s.consumer = .send t ∧ s.tqueue.length < tqueueCap ∧ s' = { s with
            tqueue := s.tqueue ++ [t], consumer := .recv,
            trace := s.trace ++ [.put t, .logDebug "consume", .logInfo "servecontent"] } := by
  unfold step at h
  split at h
  · simp at h
  · simp only at h
    split at h
    · split at h
      · exact ⟨_, by assumption, by assumption, by simpa using h.symm⟩
      · simp at h
    · simp at h

theorem step_runDeferred {T : Type} (pkg : Pkg T) {s s' : Sys T} {err : Option Err}
    (h : step pkg s (.runDeferred err) = some s') :
    ∃ d ds, s.consumer = .returning ∧ s.defers = d :: ds ∧
      s' = { runDefer s d err with defers := ds, consumer := afterDeferred ds } := by
  unfold step at h
  split at h
  · simp at h
  · simp only at h
    split at h
    · exact ⟨_, _, by assumption, by assumption, by simpa using h.symm⟩
    · simp at h

theorem step_wake {T : Type} (pkg : Pkg T) {s s' : Sys T}
    (h : step pkg s .wake = some s') :
    s.wg = 0 ∧ s' = { s with proc := some 0, trace := s.trace ++ [.exit 0] } := by
  unfold step at h
  split at h
  · simp at h
  · simp only at h
    split at h
    · exact ⟨by assumption, by simpa using h.symm⟩
    · simp at h

/-! ## The queue invariant -/

theorem waiting_not_taker {T : Type} (pkg : Pkg T)
    {s : Sys T} (hq : QInv pkg s) {i : Nat} {r : Request}
    (h : s.handlers[i]? = some (.waiting r)) : i ∉ takersOf s.trace := by
  intro hi
  obtain ⟨r', t, resp, h'⟩ := hq.served i hi
  rw [h] at h'
  simp at h'

/-- Events that touch neither the queue nor the handlers keep the queue invariant. -/
theorem qinv_quiet {T : Type} (pkg : Pkg T) {s s' : Sys T} (hq : QInv pkg s) (es : List (Event T))
    (htr : s'.trace = s.trace ++ es) (hqu : s'.tqueue = s.tqueue)
    (hh : s'.handlers = s.handlers) (hput : putsOf es = []) (htakers : takersOf es = [])
    (hresp : ∀ i resp, .respond i resp ∉ es) : QInv pkg s' := by
  have htk : ∀ i t, Event.take i t ∉ es := by
    intro i t hmem
    have : i ∈ takersOf es := by
      unfold takersOf
      exact List.mem_filterMap.mpr ⟨_, hmem, rfl⟩
    rw [htakers] at this
    simp at this
  have htakes : takesOf es = [] := by
    unfold takesOf
    rw [List.filterMap_eq_nil_iff]
    intro e he
    cases e <;> first | rfl | exact absurd he (htk _ _)
  obtain ⟨h1, h2, h4, h5, h6, h7⟩ := hq
  refine ⟨?_, ?_, ?_, ?_, ?_, ?_⟩
  · rw [htr, hqu, putsOf_append, takesOf_append, hput, htakes, h1]; simp
  · rw [hqu]; exact h2
  · rw [htr, takersOf_append, htakers]; simpa using h4
  · intro i hi
    rw [htr, takersOf_append, htakers] at hi
    rw [hh]
    exact h5 i (by simpa using hi)
  · intro i t hi
    rw [htr] at hi ⊢
    rcases List.mem_append.mp hi with hi | hi
    · obtain ⟨r, hr⟩ := h6 i t hi
      exact ⟨r, List.mem_append_left _ hr⟩
    · exact absurd hi (htk i t)
  · intro i resp hi
    rw [htr] at hi ⊢
    rcases List.mem_append.mp hi with hi | hi
    · obtain ⟨r, t, hr, hr'⟩ := h7 i resp hi
      exact ⟨r, t, List.mem_append_left _ hr, hr'⟩
    · exact absurd hi (hresp i resp)

theorem runDefer_frame {T : Type} (s : Sys T) (d : Deferred) (err : Option Err) :
    ∃ es : List (Event T), (runDefer s d err).trace = s.trace ++ es ∧
      (runDefer s d err).tqueue = s.tqueue ∧ (runDefer s d err).handlers = s.handlers ∧
      putsOf es = [] ∧ takersOf es = [] ∧ ∀ i resp, .respond i resp ∉ es := by
  cases d with
  | wgDone => exact ⟨[.wgDone], rfl, rfl, rfl, rfl, rfl, by simp⟩
  | consumerClose =>
    cases err with
    | none =>
      exact ⟨[.consumerClose], by simp [runDefer, logErr], rfl, rfl, rfl, rfl, by simp⟩
    | some e =>
      exact ⟨[.consumerClose, .logError "consume" e], by simp [runDefer, logErr],
        rfl, rfl, rfl, rfl, by simp⟩
  | partitionConsumerClose =>
    cases err with
    | none =>
      exact ⟨[.partitionConsumerClose], by simp [runDefer, logErr], rfl, rfl, rfl, rfl,
        by simp⟩
    | some e =>
      exact ⟨[.partitionConsumerClose, .logError "consume" e], by simp [runDefer, logErr],
        rfl, rfl, rfl, rfl, by simp⟩

theorem step_qinv {T : Type} (pkg : Pkg T) {s s' : Sys T} {a : Action} (hq : QInv pkg s)
    (h : step pkg s a = some s') : QInv pkg s' := by
  cases a with
  | listen err =>
    obtain ⟨-, rfl⟩ := step_listen pkg h
    exact qinv_quiet pkg hq _ rfl rfl rfl rfl rfl (by simp)
  | request r =>
    obtain ⟨-, rfl⟩ := step_request pkg h
    obtain ⟨h1, h2, h4, h5, h6, h7⟩ := hq
    refine ⟨h1, h2, h4, ?_, h6, h7⟩
    intro i hi
    obtain ⟨r', t, resp, h'⟩ := h5 i hi
    refine ⟨r', t, resp, ?_⟩
    have hlt : i < s.handlers.length := (List.getElem?_eq_some.mp h').1
    show (s.handlers ++ [Handler.waiting r])[i]? = _
    rw [List.getElem?_append_left hlt]
    exact h'
  | take i =>
    obtain ⟨r, t, rest, hw, hqu, rfl⟩ := step_take pkg h
    have hi := waiting_not_taker pkg hq hw
    have hlt : i < s.handlers.length := (List.getElem?_eq_some.mp hw).1
    obtain ⟨h1, h2, h4, h5, h6, h7⟩ := hq
    refine ⟨?_, ?_, ?_, ?_, ?_, ?_⟩
    · simp [h1, hqu]
    · simp only [hqu, List.length_cons] at h2; simp only; omega
    · simp [List.nodup_append, h4, hi]
    · intro j hj
      simp only [takersOf_append, takersOf_cons, takersOf_nil, List.append_nil,
        List.nil_append, List.mem_append, List.mem_singleton] at hj
      by_cases hji : j = i
      · subst hji
        exact ⟨r, t, dataHandler pkg r t, by simp [hlt]⟩
      · obtain ⟨r', t', resp, h'⟩ := h5 j (by tauto)
        refine ⟨r', t', resp, ?_⟩
        show (s.handlers.set i _)[j]? = _
        rw [List.getElem?_set_ne (Ne.symm hji)]
        exact h'
    · intro j u hj
      simp only [List.mem_append, List.mem_cons, List.mem_singleton, Event.take.injEq,
        reduceCtorEq, List.not_mem_nil, or_false, false_or] at hj
      rcases hj with hj | ⟨rfl, rfl⟩
      · obtain ⟨r', h'⟩ := h6 j u hj
        exact ⟨r', by simp [h']⟩
      · exact ⟨r, by simp⟩
    · intro j resp hj
      simp only [List.mem_append, List.mem_cons, List.mem_singleton, Event.respond.injEq,
        reduceCtorEq, List.not_mem_nil, or_false, false_or] at hj
      rcases hj with hj | ⟨rfl, rfl⟩
      · obtain ⟨r', t', h', h''⟩ := h7 j resp hj
        exact ⟨r', t', by simp [h'], h''⟩
      · exact ⟨r, t, by simp, rfl⟩
  | connect err =>
    obtain ⟨hc, ⟨e, -, rfl⟩ | ⟨-, rfl⟩⟩ := step_connect pkg h
    · exact qinv_quiet pkg hq _ rfl rfl rfl rfl rfl (by simp)
    · exact qinv_quiet pkg hq _ rfl rfl rfl rfl rfl (by simp)
  | subscribe err =>
    obtain ⟨hc, ⟨e, -, rfl⟩ | ⟨-, rfl⟩⟩ := step_subscribe pkg h
    · exact qinv_quiet pkg hq _ rfl rfl rfl rfl rfl (by simp)
    · exact qinv_quiet pkg hq _ rfl rfl rfl rfl rfl (by simp)
  | message m =>
    obtain ⟨hc, rfl⟩ := step_message pkg h
    exact qinv_quiet pkg hq _ rfl rfl rfl rfl rfl (by simp)
  | put =>
    obtain ⟨t, hc, hlen, rfl⟩ := step_put pkg h
    obtain ⟨h1, h2, h4, h5, h6, h7⟩ := hq
    refine ⟨?_, ?_, ?_, ?_, ?_, ?_⟩
    · simp [h1]
    · simp only [List.length_append, List.length_singleton]; omega
    · simpa using h4
    · intro i hi
      exact h5 i (by simpa using hi)
    · intro i u hi
      simp only [List.mem_append, List.mem_cons, List.mem_singleton,
        reduceCtorEq, List.not_mem_nil, or_false] at hi
      obtain ⟨r, hr⟩ := h6 i u hi
      exact ⟨r, List.mem_append_left _ hr⟩
    · intro i resp hi
      simp only [List.mem_append, List.mem_cons, List.mem_singleton,
        reduceCtorEq, List.not_mem_nil, or_false] at hi
      obtain ⟨r, u, hr, hr'⟩ := h7 i resp hi
      exact ⟨r, u, List.mem_append_left _ hr, hr'⟩
  | runDeferred err =>
    obtain ⟨d, ds, hc, hd, rfl⟩ := step_runDeferred pkg h
    obtain ⟨es, h1, h2, h3, h4, h5, h6⟩ := runDefer_frame s d err
    exact qinv_quiet pkg hq es h1 h2 h3 h4 h5 h6
  | wake =>
    obtain ⟨-, rfl⟩ := step_wake pkg h
    exact qinv_quiet pkg hq _ rfl rfl rfl rfl rfl (by simp)

/-! ## The decoding and control invariants -/

theorem pendingOf_afterDeferred {T : Type} (ds : List Deferred) :
    pendingOf (afterDeferred ds : ConsumePc T) = [] := by
  cases ds <;> rfl

theorem step_dinv {T : Type} (pkg : Pkg T) {s s' : Sys T} {a : Action} (hd : DInv pkg s)
    (h : step pkg s a = some s') : DInv pkg s' := by
  unfold DInv at hd ⊢
  cases a with
  | listen err =>
    obtain ⟨-, rfl⟩ := step_listen pkg h
    simpa using hd
  | request r =>
    obtain ⟨-, rfl⟩ := step_request pkg h
    simpa using hd
  | take i =>
    obtain ⟨r, t, rest, -, -, rfl⟩ := step_take pkg h
    simpa using hd
  | connect err =>
    obtain ⟨hc, ⟨e, -, rfl⟩ | ⟨-, rfl⟩⟩ := step_connect pkg h <;>
      simpa [hc, pendingOf] using hd
  | subscribe err =>
    obtain ⟨hc, ⟨e, -, rfl⟩ | ⟨-, rfl⟩⟩ := step_subscribe pkg h <;>
      simpa [hc, pendingOf] using hd
  | message m =>
    obtain ⟨hc, rfl⟩ := step_message pkg h
    simpa [hc, pendingOf] using hd
  | put =>
    obtain ⟨t, hc, -, rfl⟩ := step_put pkg h
    simpa [hc, pendingOf] using hd
  | runDeferred err =>
    obtain ⟨d, ds, hc, -, rfl⟩ := step_runDeferred pkg h
    rw [hc] at hd
    cases d <;> cases err <;> cases ds <;>
      simpa [runDefer, logErr, pendingOf, afterDeferred] using hd
  | wake =>
    obtain ⟨-, rfl⟩ := step_wake pkg h
    simpa using hd

theorem failedShape_frame {T : Type} {tr es : List (Event T)} {ds : List Deferred}
    (h : FailedShape tr ds) (c1 : connectsOf es = []) (c2 : subscribesOf es = [])
    (c3 : teardownOf es = []) : FailedShape (tr ++ es) ds := by
  rcases h with ⟨e, h1, h2, h3, h4⟩ | ⟨e, h1, h2, h3, h4⟩
  · exact Or.inl ⟨e, by simp [h1, c1], by simp [h2, c2], List.mem_append_left _ h3,
      by simp [c3, h4]⟩
  · exact Or.inr ⟨e, by simp [h1, c1], by simp [h2, c2], List.mem_append_left _ h3,
      by simp [c3, h4]⟩

theorem failedShape_run {T : Type} {tr l : List (Event T)} {d : Deferred}
    {ds : List Deferred} (h : FailedShape tr (d :: ds)) (c1 : connectsOf l = [])
    (c2 : subscribesOf l = []) (c3 : teardownOf l = [d]) : FailedShape (tr ++ l) ds := by
  rcases h with ⟨e, h1, h2, h3, h4⟩ | ⟨e, h1, h2, h3, h4⟩
  · exact Or.inl ⟨e, by simp [h1, c1], by simp [h2, c2], List.mem_append_left _ h3,
      by simpa [c3] using h4⟩
  · exact Or.inr ⟨e, by simp [h1, c1], by simp [h2, c2], List.mem_append_left _ h3,
      by simpa [c3] using h4⟩

theorem failedShape_defers {T : Type} {tr : List (Event T)} {d : Deferred} {ds : List Deferred}
    (h : FailedShape tr (d :: ds)) :
    (d = .wgDone ∧ ds = []) ∨ (d = .consumerClose ∧ ds = [.wgDone]) := by
  rcases h with ⟨e, -, -, -, h4⟩ | ⟨e, -, -, -, h4⟩
  · generalize teardownOf tr = td at h4
    rcases td with _ | ⟨x, td⟩
    · simp at h4; exact Or.inl h4
    · simp at h4
  · generalize teardownOf tr = td at h4
    rcases td with _ | ⟨x, _ | ⟨y, td⟩⟩
    · simp at h4; exact Or.inr h4
    · simp at h4; exact Or.inl h4.2
    · simp at h4

/-- Events outside the control flow of `consume` keep its invariant. -/
theorem cinv_frame {T : Type}
    {s s' : Sys T} (hc : CInv s) (hp : s.proc = none) (es : List (Event T))
    (htr : s'.trace = s.trace ++ es) (h1 : s'.proc = s.proc) (h2 : s'.wg = s.wg)
    (h3 : s'.defers = s.defers) (h4 : s'.consumer = s.consumer)
    (c1 : connectsOf es = []) (c2 : subscribesOf es = []) (c3 : teardownOf es = [])
    (c4 : messagesOf es = []) : CInv s' := by
  unfold CInv at hc ⊢
  rw [h4]
  cases hcons : s.consumer <;> simp only [hcons] at hc ⊢ <;>
    try simp only [htr, h1, h2, h3, connectsOf_append, subscribesOf_append,
      teardownOf_append, messagesOf_append, c1, c2, c3, c4, List.append_nil]
  · exact absurd hp hc.1
  · exact hc
  · exact hc
  · exact hc
  · exact hc
  · exact ⟨hc.1, hc.2.1, hc.2.2.1, hc.2.2.2.1, failedShape_frame hc.2.2.2.2 c1 c2 c3⟩
  · exact ⟨hc.1, hc.2.1, hc.2.2.1, hc.2.2.2.1, failedShape_frame hc.2.2.2.2 c1 c2 c3⟩

theorem step_cinv {T : Type} (pkg : Pkg T) {s s' : Sys T} {a : Action} (hc : CInv s)
    (h : step pkg s a = some s') : CInv s' := by
  have hp := step_proc pkg h
  cases a with
  | listen err =>
    obtain ⟨hs, rfl⟩ := step_listen pkg h
    exact cinv_frame hc hp _ rfl rfl rfl rfl rfl rfl rfl rfl rfl
  | request r =>
    obtain ⟨hs, rfl⟩ := step_request pkg h
    exact cinv_frame hc hp [] (by simp) rfl rfl rfl rfl rfl rfl rfl rfl
  | take i =>
    obtain ⟨r, t, rest, -, -, rfl⟩ := step_take pkg h
    exact cinv_frame hc hp _ rfl rfl rfl rfl rfl rfl rfl rfl rfl
  | wake =>
    obtain ⟨hw, rfl⟩ := step_wake pkg h
    unfold CInv at hc ⊢
    cases hcons : s.consumer <;> simp only [hcons] at hc ⊢
    · exact absurd hp hc.1
    · rw [hc.2.1] at hw; simp at hw
    · rw [hc.2.1] at hw; simp at hw
    · rw [hc.2.1] at hw; simp at hw
    · rw [hc.2.1] at hw; simp at hw
    · rw [hc.2.1] at hw; simp at hw
    · exact ⟨by simp, hc.2.1, hc.2.2.1, by simpa using hc.2.2.2.1,
        failedShape_frame hc.2.2.2.2 rfl rfl rfl⟩
  | message m =>
    obtain ⟨hpc, rfl⟩ := step_message pkg h
    unfold CInv at hc ⊢
    simp only [hpc] at hc ⊢
    simpa using hc
  | put =>
    obtain ⟨t, hpc, -, rfl⟩ := step_put pkg h
    unfold CInv at hc ⊢
    simp only [hpc] at hc ⊢
    simpa using hc
  | connect err =>
    obtain ⟨hpc, ⟨e, -, rfl⟩ | ⟨-, rfl⟩⟩ := step_connect pkg h
    · unfold CInv at hc ⊢
      simp only [hpc] at hc ⊢
      obtain ⟨h1, h2, h3, h4, h5, h6, h7⟩ := hc
      refine ⟨h1, h2, by simp, by simp [h7], Or.inl ⟨e, ?_, ?_, ?_, ?_⟩⟩ <;> simp [*]
    · unfold CInv at hc ⊢
      simp only [hpc] at hc ⊢
      obtain ⟨h1, h2, h3, h4, h5, h6, h7⟩ := hc
      refine ⟨h1, h2, by simp, ?_, ?_, ?_, ?_⟩ <;> simp [*]
  | subscribe err =>
    obtain ⟨hpc, ⟨e, -, rfl⟩ | ⟨-, rfl⟩⟩ := step_subscribe pkg h
    · unfold CInv at hc ⊢
      simp only [hpc] at hc ⊢
      obtain ⟨h1, h2, h3, h4, h5, h6, h7⟩ := hc
      refine ⟨h1, h2, by simp [h3], by simp [h7], Or.inr ⟨e, ?_, ?_, ?_, ?_⟩⟩ <;> simp [*]
    · unfold CInv at hc ⊢
      simp only [hpc] at hc ⊢
      obtain ⟨h1, h2, h3, h4, h5, h6, h7⟩ := hc
      refine ⟨h1, h2, by simp [h3], ?_, ?_, ?_⟩ <;> simp [*]
  | runDeferred err =>
    obtain ⟨d, ds, hpc, hd, rfl⟩ := step_runDeferred pkg h
    unfold CInv at hc
    simp only [hpc] at hc
    obtain ⟨-, hwg, -, hm, hf⟩ := hc
    rw [hd] at hf
    rcases failedShape_defers hf with ⟨rfl, rfl⟩ | ⟨rfl, rfl⟩
    · unfold CInv
      simp only [afterDeferred]
      refine ⟨Or.inl hp, ?_, by simp, ?_, ?_⟩
      · simp [runDefer, hwg]
      · simp [runDefer, hm]
      · have := failedShape_run (l := [.wgDone]) hf rfl rfl rfl
        simpa [runDefer] using this
    · unfold CInv
      simp only [afterDeferred]
      refine ⟨hp, hwg, by simp, ?_, ?_⟩
      · cases err <;> simp [runDefer, logErr, hm]
      · cases err
        · have := failedShape_run (l := [.consumerClose]) hf rfl rfl rfl
          simpa [runDefer, logErr] using this
        · rename_i e
          have := failedShape_run (l := [.consumerClose, .logError "consume" e]) hf rfl rfl rfl
          simpa [runDefer, logErr] using this

/-! ## Reachable states -/

theorem step_inv {T : Type} (pkg : Pkg T) {s s' : Sys T} {a : Action} (hi : Inv pkg s)
    (h : step pkg s a = some s') : Inv pkg s' :=
  ⟨step_qinv pkg hi.1 h, step_dinv pkg hi.2.1 h, step_cinv pkg hi.2.2 h⟩

theorem next_inv {T : Type} (pkg : Pkg T)
    {s : Sys T} (a : Action) (hi : Inv pkg s) : Inv pkg (next pkg s a) := by
  unfold next
  split
  · exact step_inv pkg hi (by assumption)
  · exact hi

theorem exec_inv {T : Type} (pkg : Pkg T) {s : Sys T} (acts : List Action) (hi : Inv pkg s) :
    Inv pkg (exec pkg s acts) := by
  induction acts generalizing s with
  | nil => exact hi
  | cons a as ih => exact ih (next_inv pkg a hi)

theorem exec_append {T : Type} (pkg : Pkg T) (s : Sys T) (as bs : List Action) :
    exec pkg s (as ++ bs) = exec pkg (exec pkg s as) bs := by
  induction as generalizing s with
  | nil => rfl
  | cons a as ih => exact ih _

theorem syncstaticdata_quiet {T : Type} (o : ObjectStore) :
    putsOf (syncstaticdata (T := T) o).1 = [] ∧ takersOf (syncstaticdata (T := T) o).1 = [] ∧
    messagesOf (syncstaticdata (T := T) o).1 = [] ∧
    connectsOf (syncstaticdata (T := T) o).1 = [] ∧
    subscribesOf (syncstaticdata (T := T) o).1 = [] ∧
    teardownOf (syncstaticdata (T := T) o).1 = [] ∧
    takesOf (syncstaticdata (T := T) o).1 = [] ∧
    (∀ i t, .take i t ∉ (syncstaticdata (T := T) o).1) ∧
    (∀ i r, .respond i r ∉ (syncstaticdata (T := T) o).1) := by
  unfold syncstaticdata
  simp only
  split
  · simp
  · split
    · simp
    · split
      · simp
      · split <;> simp

theorem main_inv {T : Type} (pkg : Pkg T)
    (flags : Flags) (o : ObjectStore) : Inv pkg (main flags o) := by
  obtain ⟨h1, h2, h3, h4, h5, h6, h7, h8, h9⟩ := syncstaticdata_quiet (T := T) o
  unfold main
  split
  · refine ⟨⟨?_, ?_, ?_, ?_, ?_, ?_⟩, ?_, ?_⟩ <;>
      simp [Sys.ended, DInv, CInv, pendingOf, tqueueCap]
  · split
    · refine ⟨⟨?_, ?_, ?_, ?_, ?_, ?_⟩, ?_, ?_⟩ <;>
        simp [Sys.ended, DInv, CInv, pendingOf, tqueueCap]
    · split
      · rename_i t code heq
        rw [heq] at h1 h2 h3 h4 h5 h6 h7 h8 h9
        simp only at h1 h2 h3 h4 h5 h6 h7 h8 h9
        refine ⟨⟨?_, ?_, ?_, ?_, ?_, ?_⟩, ?_, ?_⟩ <;>
          simp [Sys.ended, DInv, CInv, pendingOf, tqueueCap, *]
      · rename_i t heq
        rw [heq] at h1 h2 h3 h4 h5 h6 h7 h8 h9
        simp only at h1 h2 h3 h4 h5 h6 h7 h8 h9
        refine ⟨⟨?_, ?_, ?_, ?_, ?_, ?_⟩, ?_, ?_⟩ <;>
          simp [DInv, CInv, pendingOf, tqueueCap, *]

theorem reachable_inv {T : Type} (pkg : Pkg T) {s : Sys T} (h : Reachable pkg s) : Inv pkg s := by
  obtain ⟨flags, o, acts, rfl⟩ := h
  exact exec_inv pkg acts (main_inv pkg flags o)

theorem reachable_exec {T : Type} (pkg : Pkg T)
    {s : Sys T} (h : Reachable pkg s) (acts : List Action) :
    Reachable pkg (exec pkg s acts) := by
  obtain ⟨flags, o, as, rfl⟩ := h
  exact ⟨flags, o, as ++ acts, exec_append pkg _ _ _⟩

theorem step_none_of_ended {T : Type} (pkg : Pkg T) {s : Sys T} (h : s.proc ≠ none) (a : Action) :
    step pkg s a = none := by
  unfold step
  split
  · rfl
  · contradiction

theorem exec_ended {T : Type} (pkg : Pkg T) {s : Sys T} (h : s.proc ≠ none) (acts : List Action) :
    exec pkg s acts = s := by
  induction acts with
  | nil => rfl
  | cons a as ih =>
    show exec pkg (next pkg s a) as = s
    unfold next
    rw [step_none_of_ended pkg h a]
    exact ih

theorem step_trace {T : Type} (pkg : Pkg T)
    {s s' : Sys T} {a : Action} (h : step pkg s a = some s') :
    ∃ es, s'.trace = s.trace ++ es := by
  cases a with
  | listen err => obtain ⟨-, rfl⟩ := step_listen pkg h; exact ⟨_, rfl⟩
  | request r => obtain ⟨-, rfl⟩ := step_request pkg h; exact ⟨[], by simp⟩
  | take i => obtain ⟨r, t, rest, -, -, rfl⟩ := step_take pkg h; exact ⟨_, rfl⟩
  | connect err =>
    obtain ⟨-, ⟨e, -, rfl⟩ | ⟨-, rfl⟩⟩ := step_connect pkg h <;> exact ⟨_, rfl⟩
  | subscribe err =>
    obtain ⟨-, ⟨e, -, rfl⟩ | ⟨-, rfl⟩⟩ := step_subscribe pkg h <;> exact ⟨_, rfl⟩
  | message m => obtain ⟨-, rfl⟩ := step_message pkg h; exact ⟨_, rfl⟩
  | put => obtain ⟨t, -, -, rfl⟩ := step_put pkg h; exact ⟨_, rfl⟩
  | runDeferred err =>
    obtain ⟨d, ds, -, -, rfl⟩ := step_runDeferred pkg h
    obtain ⟨es, h1, -⟩ := runDefer_frame s d err
    exact ⟨es, h1⟩
  | wake => obtain ⟨-, rfl⟩ := step_wake pkg h; exact ⟨_, rfl⟩

theorem exec_trace {T : Type} (pkg : Pkg T) (s : Sys T) (acts : List Action) :
    ∃ es, (exec pkg s acts).trace = s.trace ++ es := by
  induction acts generalizing s with
  | nil => exact ⟨[], by simp [exec]⟩
  | cons a as ih =>
    obtain ⟨es, h⟩ := ih (next pkg s a)
    have : ∃ es', (next pkg s a).trace = s.trace ++ es' := by
      unfold next
      split
      · exact step_trace pkg (by assumption)
      · exact ⟨[], by simp⟩
    obtain ⟨es', h'⟩ := this
    exact ⟨es' ++ es, by show (exec pkg (next pkg s a) as).trace = _; rw [h, h']; simp⟩

/-! ## Enabled actions, streaming and failure -/

theorem step_take_eq {T : Type} (pkg : Pkg T) {s : Sys T} {i : Nat} {r : Request}
    {t : T} {q : List T} (hp : s.proc = none) (hw : s.handlers[i]? = some (.waiting r))
    (hq : s.tqueue = t :: q) :
    step pkg s (.take i) = some { s with
          tqueue := q,
          handlers := s.handlers.set i (.served r t (dataHandler pkg r t)),
          trace := s.trace ++
            [.take i t, .logInfo "servecontent", .respond i (dataHandler pkg r t)] } := by
  unfold step
  simp only [hp, hw, hq]

theorem step_put_eq {T : Type} (pkg : Pkg T) {s : Sys T} {t : T} (hp : s.proc = none)
    (hc : s.consumer = .send t) (hl : s.tqueue.length < tqueueCap) :
    step pkg s .put = some { s with
            tqueue := s.tqueue ++ [t], consumer := .recv,
            trace := s.trace ++ [.put t, .logDebug "consume", .logInfo "servecontent"] } := by
  unfold step
  simp only [hp, hc, hl, if_true]

theorem takers_length {T : Type} (tr : List (Event T)) :
    (takersOf tr).length = (takesOf tr).length := by
  induction tr with
  | nil => rfl
  | cons e tr ih => cases e <;> simp [ih]

/-- A record in the channel means the consumer streamed, so the process runs. -/
theorem running_of_queue {T : Type} (pkg : Pkg T) {s : Sys T} (hi : Inv pkg s) (h : s.tqueue ≠ []) :
    s.proc = none := by
  obtain ⟨hq, hd, hc⟩ := hi
  have hm : messagesOf s.trace = [] → False := by
    intro hm
    unfold DInv at hd
    rw [hm] at hd
    have h1 : putsOf s.trace = [] := by
      have := congrArg List.length hd
      simp only [List.map_nil, List.length_nil, List.length_append] at this
      exact List.length_eq_zero.mp (by omega)
    have h2 := hq.fifo
    rw [h1] at h2
    have := congrArg List.length h2
    simp only [List.length_nil, List.length_append] at this
    exact h (List.length_eq_zero.mp (by omega))
  unfold CInv at hc
  cases hcons : s.consumer <;> simp only [hcons] at hc
  · exact absurd hc.2.2.2.2.2.2.2 hm
  · exact hc.1
  · exact hc.1
  · exact hc.1
  · exact hc.1
  · exact hc.1
  · exact absurd hc.2.2.2.1 hm

theorem step_message_eq {T : Type} (pkg : Pkg T) {s : Sys T} (m : ConsumerMessage)
    (hp : s.proc = none) (hc : s.consumer = .recv) :
    step pkg s (.message m) = some { s with
          consumer := .send (pkg.frommsg (goString m.Value)),
          trace := s.trace ++ [.message m] } := by
  unfold step
  simp only [hp, hc]

theorem step_request_eq {T : Type} (pkg : Pkg T) {s : Sys T} (r : Request)
    (hp : s.proc = none) (hc : s.server = .listening) :
    step pkg s (.request r) = some { s with handlers := s.handlers ++ [.waiting r] } := by
  unfold step
  simp only [hp, hc]

/-- Feeding messages one by one, each taken by its own request. -/
theorem exec_feedFrom {T : Type} (pkg : Pkg T) (ms : List ConsumerMessage) (s : Sys T)
    (hp : s.proc = none) (hc : s.consumer = .recv) (hl : s.server = .listening)
    (hq : s.tqueue = []) :
    (exec pkg s (feedFrom s.handlers.length ms)).consumer = .recv ∧
    messagesOf (exec pkg s (feedFrom s.handlers.length ms)).trace =
      messagesOf s.trace ++ ms ∧
    putsOf (exec pkg s (feedFrom s.handlers.length ms)).trace =
      putsOf s.trace ++ ms.map (fun m => pkg.frommsg (goString m.Value)) ∧
    takesOf (exec pkg s (feedFrom s.handlers.length ms)).trace =
      takesOf s.trace ++ ms.map (fun m => pkg.frommsg (goString m.Value)) := by
  induction ms generalizing s with
  | nil => simp [feedFrom, exec, hc]
  | cons m ms ih =>
    have h1 := step_message_eq pkg m hp hc
    have h2 := step_put_eq pkg (s := { s with
          consumer := .send (pkg.frommsg (goString m.Value)),
          trace := s.trace ++ [.message m] }) (t := pkg.frommsg (goString m.Value))
      hp rfl (by simp [hq, tqueueCap])
    have h3 := step_request_eq pkg (s := { s with
          tqueue := s.tqueue ++ [pkg.frommsg (goString m.Value)], consumer := .recv,
          trace := s.trace ++ [.message m] ++
            [.put (pkg.frommsg (goString m.Value)), .logDebug "consume",
              .logInfo "servecontent"] }) getRequest hp hl
    have h4 := step_take_eq pkg (s := { s with
          tqueue := s.tqueue ++ [pkg.frommsg (goString m.Value)], consumer := .recv,
          handlers := s.handlers ++ [.waiting getRequest],
          trace := s.trace ++ [.message m] ++
            [.put (pkg.frommsg (goString m.Value)), .logDebug "consume",
              .logInfo "servecontent"] }) (i := s.handlers.length) (r := getRequest)
      (t := pkg.frommsg (goString m.Value)) (q := []) hp (by simp) (by simp [hq])
    have hlen : (s.handlers ++ [Handler.waiting getRequest]).length =
        s.handlers.length + 1 := by simp
    have := ih ({ s with
          tqueue := [], consumer := ConsumePc.recv,
          handlers := (s.handlers ++ [Handler.waiting getRequest]).set s.handlers.length
            (Handler.served getRequest (pkg.frommsg (goString m.Value))
              (dataHandler pkg getRequest (pkg.frommsg (goString m.Value)))),
          trace := s.trace ++ [Event.message m] ++
            [Event.put (pkg.frommsg (goString m.Value)), Event.logDebug "consume",
              Event.logInfo "servecontent"] ++
            [Event.take s.handlers.length (pkg.frommsg (goString m.Value)),
              Event.logInfo "servecontent",
              Event.respond s.handlers.length
                (dataHandler pkg getRequest (pkg.frommsg (goString m.Value)))] } : Sys T)
      hp rfl hl rfl
    simp only [List.length_set, hlen] at this
    simp only [feedFrom, List.cons_append, List.nil_append, exec, next, h1, h2, h3, h4]
    simpa using this

theorem streaming_step {T : Type} (pkg : Pkg T) {s s' : Sys T} {a : Action}
    (hs : streaming s.consumer = true) (h : step pkg s a = some s') :
    streaming s'.consumer = true := by
  cases a with
  | listen err => obtain ⟨-, rfl⟩ := step_listen pkg h; exact hs
  | request r => obtain ⟨-, rfl⟩ := step_request pkg h; exact hs
  | take i => obtain ⟨r, u, rest, -, -, rfl⟩ := step_take pkg h; exact hs
  | connect err => obtain ⟨h', -⟩ := step_connect pkg h; rw [h'] at hs; cases hs
  | subscribe err => obtain ⟨h', -⟩ := step_subscribe pkg h; rw [h'] at hs; cases hs
  | message m => obtain ⟨-, rfl⟩ := step_message pkg h; rfl
  | put => obtain ⟨t, -, -, rfl⟩ := step_put pkg h; rfl
  | runDeferred err =>
    obtain ⟨d, ds, h', -⟩ := step_runDeferred pkg h; rw [h'] at hs; cases hs
  | wake => obtain ⟨-, rfl⟩ := step_wake pkg h; exact hs

theorem streaming_next {T : Type} (pkg : Pkg T) {s : Sys T} (a : Action)
    (hs : streaming s.consumer = true) : streaming (next pkg s a).consumer = true := by
  unfold next
  split
  · exact streaming_step pkg hs (by assumption)
  · exact hs

theorem streaming_exec {T : Type} (pkg : Pkg T) {s : Sys T} (acts : List Action)
    (hs : streaming s.consumer = true) : streaming (exec pkg s acts).consumer = true := by
  induction acts generalizing s with
  | nil => exact hs
  | cons a as ih => exact ih (streaming_next pkg a hs)

/-- In the message loop the control state of `consume` is fixed. -/
theorem cinv_streaming {T : Type} {s : Sys T} (hc : CInv s) (hs : streaming s.consumer = true) :
    s.proc = none ∧ s.wg = 1 ∧
      s.defers = [.partitionConsumerClose, .consumerClose, .wgDone] ∧
      connectsOf s.trace = [none] ∧ subscribesOf s.trace = [none] ∧
      teardownOf s.trace = [] := by
  unfold CInv at hc
  cases hcons : s.consumer <;> rw [hcons] at hs <;> simp only [hcons] at hc <;>
    first | exact hc | cases hs

theorem mem_teardownOf {T : Type} {tr : List (Event T)} {d : Deferred} (h : d ∈ teardownOf tr) :
    (match d with
      | .wgDone => Event.wgDone
      | .consumerClose => Event.consumerClose
      | .partitionConsumerClose => Event.partitionConsumerClose) ∈ tr := by
  unfold teardownOf at h
  obtain ⟨e, he, heq⟩ := List.mem_filterMap.mp h
  cases e <;> simp at heq <;> subst heq <;> exact he

theorem teardownOf_mem {T : Type} {l : List (Event T)} :
    (Event.wgDone ∈ l → Deferred.wgDone ∈ teardownOf l) ∧
    (Event.consumerClose ∈ l → Deferred.consumerClose ∈ teardownOf l) ∧
    (Event.partitionConsumerClose ∈ l →
      Deferred.partitionConsumerClose ∈ teardownOf l) := by
  unfold teardownOf
  refine ⟨?_, ?_, ?_⟩ <;> intro h <;> exact List.mem_filterMap.mpr ⟨_, h, rfl⟩

/-- Once a deferred call ran, or an attempt failed, `consume` is on its way out. -/
theorem cinv_failed {T : Type} {s : Sys T} (hc : CInv s)
    (h : teardownOf s.trace ≠ [] ∨
      (∃ e, some e ∈ connectsOf s.trace ∨ some e ∈ subscribesOf s.trace)) :
    (s.consumer = .returning ∧ s.proc = none ∧ s.wg = 1 ∧ s.defers ≠ [] ∨
      s.consumer = .done ∧ (s.proc = none ∨ s.proc = some 0) ∧ s.wg = 0 ∧ s.defers = []) ∧
    messagesOf s.trace = [] ∧ FailedShape s.trace s.defers := by
  unfold CInv at hc
  cases hcons : s.consumer <;> simp only [hcons] at hc
  case returning => exact ⟨Or.inl ⟨rfl, hc.1, hc.2.1, hc.2.2.1⟩, hc.2.2.2.1, hc.2.2.2.2⟩
  case done => exact ⟨Or.inr ⟨rfl, hc.1, hc.2.1, hc.2.2.1⟩, hc.2.2.2.1, hc.2.2.2.2⟩
  all_goals
    exfalso
    rcases h with h | ⟨e, h | h⟩
    · exact h (by simp [hc])
    · simp [hc] at h
    · simp [hc] at h

theorem quiet_of_no_messages {T : Type} (pkg : Pkg T) {s : Sys T} (hi : Inv pkg s)
    (hm : messagesOf s.trace = []) : putsOf s.trace = [] ∧ s.tqueue = [] := by
  have hd := hi.2.1
  unfold DInv at hd
  rw [hm] at hd
  have h1 : putsOf s.trace = [] := by
    have := congrArg List.length hd
    simp only [List.map_nil, List.length_nil, List.length_append] at this
    exact List.length_eq_zero.mp (by omega)
  have h2 := hi.1.fifo
  rw [h1] at h2
  have := congrArg List.length h2
  simp only [List.length_nil, List.length_append] at this
  exact ⟨h1, List.length_eq_zero.mp (by omega)⟩

/-- The fetch ends the process with code 1 exactly when one of its steps fails, and
starts no goroutine itself. -/
theorem syncstaticdata_result {T : Type} (o : ObjectStore) :
    (syncstaticdata (T := T) o).2 = (if fetchFails o then some 1 else none) ∧
    Event.goServecontent ∉ (syncstaticdata (T := T) o).1 ∧
    (∀ t, Event.goConsume t ∉ (syncstaticdata (T := T) o).1) ∧
    (∀ a, Event.listenAndServe a ∉ (syncstaticdata (T := T) o).1) := by
  unfold syncstaticdata fetchFails
  simp only
  split
  · rename_i e h
    simp [h]
  · rename_i h
    split
    · rename_i hb
      simp only [Bool.or_eq_true, Bool.not_eq_true'] at hb
      rcases hb with hb | hb <;> simp [h, hb]
    · rename_i hb
      simp only [Bool.or_eq_true, Bool.not_eq_true', not_or, Bool.not_eq_false] at hb
      split
      · rename_i e hf
        simp [h, hb, hf]
      · rename_i hf
        split
        · rename_i e hd
          simp [h, hb, hf, hd]
        · rename_i hd
          simp [h, hb, hf, hd]

/-- The two outcomes of `main`: the process ended during startup without starting a
goroutine, or the fetch succeeded and both goroutines were started after it. -/
theorem main_cases {T : Type} (flags : Flags) (o : ObjectStore) :
    (∃ t code, main (T := T) flags o = Sys.ended flags t code ∧
      Event.goServecontent ∉ t ∧ (∀ u, Event.goConsume u ∉ t) ∧
      (∀ a, Event.listenAndServe a ∉ t) ∧
      (flags.version = false → flags.broker ≠ "" → code = 1)) ∨
    (fetchFails o = false ∧ (syncstaticdata (T := T) o).2 = none ∧
      (main (T := T) flags o).trace = (syncstaticdata o).1 ++
        [.goServecontent, .wgAdd 1, .goConsume "trafficdata", .wgWait]) := by
  obtain ⟨hres, hg1, hg2, hg3⟩ := syncstaticdata_result (T := T) o
  unfold main
  split
  · rename_i hv
    exact Or.inl ⟨_, _, rfl, by simp, by simp, by simp, by simp [hv]⟩
  · split
    · rename_i hb
      exact Or.inl ⟨_, _, rfl, by simp, by simp, by simp, by simp [hb]⟩
    · split
      · rename_i t code heq
        rw [heq] at hres hg1 hg2 hg3
        simp only at hres hg1 hg2 hg3
        have hcode : code = 1 := by
          cases hfo : fetchFails o <;> rw [hfo] at hres <;> simp at hres
          exact hres
        exact Or.inl ⟨t, code, rfl, hg1, hg2, hg3, fun _ _ => hcode⟩
      · rename_i t heq
        rw [heq] at hres
        simp only at hres
        have hff : fetchFails o = false := by
          cases hfo : fetchFails o
          · rfl
          · rw [hfo] at hres; simp at hres
        exact Or.inr ⟨hff, by rw [heq], by rw [heq]⟩

/-! ## The claims -/

/-- C1 (FIFO hand-off). In every reachable state, whatever the schedule that led to it,
the records the `/data` handlers received, followed by the records still in `tqueue`,
are the records `consume` sent, in the same order. So the records handed to the
handlers are an initial segment of the records put, and the `k`-th completed receive
returned the `k`-th record put. -/
theorem fifo_handoff {T : Type} (pkg : Pkg T) (s : Sys T) (hs : Reachable pkg s) :
    takesOf s.trace ++ s.tqueue = putsOf s.trace ∧
    takesOf s.trace <+: putsOf s.trace ∧
    ∀ (k : Nat) (t : T), (takesOf s.trace)[k]? = some t → (putsOf s.trace)[k]? = some t := by
  have h := (reachable_inv pkg hs).1.fifo
  refine ⟨h.symm, ⟨s.tqueue, h.symm⟩, ?_⟩
  intro k t hk
  rw [h]
  have hlt : k < (takesOf s.trace).length := (List.getElem?_eq_some.mp hk).1
  rw [List.getElem?_append_left hlt]
  exact hk

/-- A run with three messages and two requests: the second receive got the second
record. -/
theorem fifo_handoff_witness :
    Reachable natPkg (run natPkg okFlags okStore fifoSchedule) ∧
    takesOf (run natPkg okFlags okStore fifoSchedule).trace = [3, 4] ∧
    putsOf (run natPkg okFlags okStore fifoSchedule).trace = [3, 4, 11] ∧
    (putsOf (run natPkg okFlags okStore fifoSchedule).trace)[1]? = some 4 :=
  ⟨⟨okFlags, okStore, fifoSchedule, rfl⟩, by decide, by decide,
    (fifo_handoff natPkg _ ⟨okFlags, okStore, fifoSchedule, rfl⟩).2.2 1 4 (by decide)⟩

/-- C2 (bounded buffer without loss). In every reachable state `tqueue` holds at most
10 records. When it holds 10 and `consume` has the record `t` to send: the send is not
enabled and attempting it changes nothing; every action that does happen leaves `t`
pending and the channel as it is, except a receive, which removes the head only; and
after a receive the send is enabled and appends `t` behind the nine records left. -/
theorem bounded_buffer {T : Type} (pkg : Pkg T) (s : Sys T) (hs : Reachable pkg s) :
    s.tqueue.length ≤ 10 ∧
    ∀ t, s.consumer = .send t → s.tqueue.length = 10 →
      step pkg s .put = none ∧ next pkg s .put = s ∧
      (∀ a s', step pkg s a = some s' → s'.consumer = .send t ∧
        (s'.tqueue = s.tqueue ∨ ∃ i h, a = .take i ∧ s.tqueue = h :: s'.tqueue)) ∧
      (∀ i s', step pkg s (.take i) = some s' → ∃ h rest, s.tqueue = h :: rest ∧
        s'.tqueue = rest ∧ step pkg s' .put ≠ none ∧
        (next pkg s' .put).tqueue = rest ++ [t]) := by
  have hi := reachable_inv pkg hs
  refine ⟨hi.1.bound, ?_⟩
  intro t hc hl
  have hput : step pkg s .put = none := by
    cases h : step pkg s .put with
    | none => rfl
    | some s' =>
      obtain ⟨_, -, hlt, -⟩ := step_put pkg h
      simp only [tqueueCap] at hlt
      omega
  refine ⟨hput, by simp [next, hput], ?_, ?_⟩
  · intro a s' h
    cases a with
    | listen err => obtain ⟨-, rfl⟩ := step_listen pkg h; exact ⟨hc, Or.inl rfl⟩
    | request r => obtain ⟨-, rfl⟩ := step_request pkg h; exact ⟨hc, Or.inl rfl⟩
    | take i =>
      obtain ⟨r, u, rest, -, hq, rfl⟩ := step_take pkg h
      exact ⟨hc, Or.inr ⟨i, u, rfl, hq⟩⟩
    | connect err => obtain ⟨h', -⟩ := step_connect pkg h; rw [hc] at h'; cases h'
    | subscribe err => obtain ⟨h', -⟩ := step_subscribe pkg h; rw [hc] at h'; cases h'
    | message m => obtain ⟨h', -⟩ := step_message pkg h; rw [hc] at h'; cases h'
    | put => rw [hput] at h; cases h
    | runDeferred err =>
      obtain ⟨d, ds, h', -⟩ := step_runDeferred pkg h; rw [hc] at h'; cases h'
    | wake => obtain ⟨-, rfl⟩ := step_wake pkg h; exact ⟨hc, Or.inl rfl⟩
  · intro i s' h
    have hp := step_proc pkg h
    obtain ⟨r, u, rest, -, hq, rfl⟩ := step_take pkg h
    have hlr : rest.length < tqueueCap := by
      rw [hq] at hl
      simp only [List.length_cons] at hl
      simp only [tqueueCap]
      omega
    have hstep := step_put_eq pkg (s := { s with
          tqueue := rest,
          handlers := s.handlers.set i (.served r u (dataHandler pkg r u)),
          trace := s.trace ++
            [.take i u, .logInfo "servecontent", .respond i (dataHandler pkg r u)] })
      (t := t) hp hc hlr
    refine ⟨u, rest, hq, rfl, ?_, ?_⟩
    · rw [hstep]; simp
    · simp only [next, hstep]

/-- A run that fills the channel: the eleventh record stays pending. -/
theorem bounded_buffer_witness :
    Reachable natPkg (run natPkg okFlags okStore fullSchedule) ∧
    (run natPkg okFlags okStore fullSchedule).tqueue = [1, 1, 1, 1, 1, 1, 1, 1, 1, 1] ∧
    (run natPkg okFlags okStore fullSchedule).consumer = .send 2 ∧
    step natPkg (run natPkg okFlags okStore fullSchedule) .put = none :=
  ⟨⟨okFlags, okStore, fullSchedule, rfl⟩, by decide, by decide,
    ((bounded_buffer natPkg _ ⟨okFlags, okStore, fullSchedule, rfl⟩).2 2
      (by decide) (by decide)).1⟩

/-- C3 (no double delivery). In every reachable state: a request that completes its
receive was waiting, removes exactly the head of `tqueue` and is answered with that
record; no request appears twice among the receivers; there are as many receivers as
received records, and the `k`-th received record is the `k`-th record put, so each
occurrence put goes to one request at most. Two waiting requests `i` and `j` against a
channel that starts with `a`, `b` receive `a` and `b`, the one that is first `a` (the
other order is the same statement with `i` and `j` exchanged). -/
theorem no_double_delivery {T : Type} (pkg : Pkg T) (s : Sys T) (hs : Reachable pkg s) :
    (∀ i s', step pkg s (.take i) = some s' → ∃ r t,
      s.handlers[i]? = some (.waiting r) ∧ s.tqueue = t :: s'.tqueue ∧
      s'.handlers[i]? = some (.served r t (dataHandler pkg r t)) ∧
      takesOf s'.trace = takesOf s.trace ++ [t] ∧
      takersOf s'.trace = takersOf s.trace ++ [i]) ∧
    (takersOf s.trace).Nodup ∧
    (takersOf s.trace).length = (takesOf s.trace).length ∧
    (∀ (k : Nat) (t : T), (takesOf s.trace)[k]? = some t → (putsOf s.trace)[k]? = some t) ∧
    (∀ i j ri rj a b rest, i ≠ j → s.handlers[i]? = some (.waiting ri) →
      s.handlers[j]? = some (.waiting rj) → s.tqueue = a :: b :: rest →
      (exec pkg s [.take i, .take j]).handlers[i]? =
        some (.served ri a (dataHandler pkg ri a)) ∧
      (exec pkg s [.take i, .take j]).handlers[j]? =
        some (.served rj b (dataHandler pkg rj b)) ∧
      (exec pkg s [.take i, .take j]).tqueue = rest) := by
  have hi := reachable_inv pkg hs
  refine ⟨?_, hi.1.nodup, takers_length _, ?_, ?_⟩
  · intro i s' h
    obtain ⟨r, t, rest, hw, hq, rfl⟩ := step_take pkg h
    have hlt : i < s.handlers.length := (List.getElem?_eq_some.mp hw).1
    exact ⟨r, t, hw, hq, by simp [hlt], by simp, by simp⟩
  · intro k t hk
    rw [hi.1.fifo]
    have hlt : k < (takesOf s.trace).length := (List.getElem?_eq_some.mp hk).1
    rw [List.getElem?_append_left hlt]
    exact hk
  · intro i j ri rj a b rest hij hwi hwj hq
    have hp : s.proc = none := running_of_queue pkg hi (by rw [hq]; simp)
    have hli : i < s.handlers.length := (List.getElem?_eq_some.mp hwi).1
    have hlj : j < s.handlers.length := (List.getElem?_eq_some.mp hwj).1
    have h1 := step_take_eq pkg hp hwi hq
    have h2 := step_take_eq pkg (s := { s with
          tqueue := b :: rest,
          handlers := s.handlers.set i (.served ri a (dataHandler pkg ri a)),
          trace := s.trace ++
            [.take i a, .logInfo "servecontent", .respond i (dataHandler pkg ri a)] })
      (i := j) (r := rj) (t := b) (q := rest) hp
      (by show (s.handlers.set i _)[j]? = _
          rw [List.getElem?_set_ne hij]; exact hwj) rfl
    simp only [exec, next, h1, h2]
    refine ⟨?_, ?_, trivial⟩
    · rw [List.getElem?_set_ne (Ne.symm hij)]
      simp [hli]
    · simp [hlj]

/-- Two requests against the full channel each remove one record. -/
theorem no_double_delivery_witness :
    Reachable natPkg (run natPkg okFlags okStore fullSchedule) ∧
    (run natPkg okFlags okStore fullSchedule).tqueue = [1, 1, 1, 1, 1, 1, 1, 1, 1, 1] ∧
    (exec natPkg (run natPkg okFlags okStore fullSchedule) [.take 1, .take 0]).tqueue =
      [1, 1, 1, 1, 1, 1, 1, 1] :=
  ⟨⟨okFlags, okStore, fullSchedule, rfl⟩, by decide,
    ((no_double_delivery natPkg _ ⟨okFlags, okStore, fullSchedule, rfl⟩).2.2.2.2
      1 0 getRequest getRequest 1 1 [1, 1, 1, 1, 1, 1, 1, 1] (by decide) (by decide)
      (by decide) (by decide)).2.2⟩

/-- C4 (per-message processing). In every reachable state the decoded messages
received so far, in arrival order, are the records sent so far followed by the record
still pending, if any. In the loop every payload is accepted and decoded, the next
message is not received before the pending record is sent, the send completes as soon
as the channel has room, and no schedule takes `consume` out of the loop. For every
list of messages there is a run that receives exactly these and sends exactly their
decodings, and ends at the head of the loop. -/
theorem per_message {T : Type} (pkg : Pkg T) (s : Sys T) (hs : Reachable pkg s) :
    (messagesOf s.trace).map (fun m => pkg.frommsg (goString m.Value)) =
      putsOf s.trace ++ pendingOf s.consumer ∧
    (∀ m, s.consumer = .recv → step pkg s (.message m) = some { s with
        consumer := .send (pkg.frommsg (goString m.Value)),
        trace := s.trace ++ [.message m] }) ∧
    (∀ t m, s.consumer = .send t → step pkg s (.message m) = none) ∧
    (∀ t, s.consumer = .send t → s.tqueue.length < 10 → step pkg s .put = some { s with
        tqueue := s.tqueue ++ [t], consumer := .recv,
        trace := s.trace ++ [.put t, .logDebug "consume", .logInfo "servecontent"] }) ∧
    (∀ acts, streaming s.consumer = true → streaming (exec pkg s acts).consumer = true) ∧
    (∀ ms : List ConsumerMessage,
      messagesOf (run pkg okFlags okStore (feed ms)).trace = ms ∧
      putsOf (run pkg okFlags okStore (feed ms)).trace =
        ms.map (fun m => pkg.frommsg (goString m.Value)) ∧
      (run pkg okFlags okStore (feed ms)).consumer = .recv) := by
  have hi := reachable_inv pkg hs
  refine ⟨hi.2.1, ?_, ?_, ?_, ?_, ?_⟩
  · intro m hc
    exact step_message_eq pkg m (cinv_streaming hi.2.2 (by rw [hc]; rfl)).1 hc
  · intro t m hc
    cases h : step pkg s (.message m) with
    | none => rfl
    | some s' => obtain ⟨h', -⟩ := step_message pkg h; rw [hc] at h'; cases h'
  · intro t hc hl
    exact step_put_eq pkg (cinv_streaming hi.2.2 (by rw [hc]; rfl)).1 hc hl
  · intro acts h
    exact streaming_exec pkg acts h
  · intro ms
    have h := exec_feedFrom pkg ms
      (exec pkg (main okFlags okStore) [.listen none, .connect none, .subscribe none])
      rfl rfl rfl rfl
    have hrun : run pkg okFlags okStore (feed ms) =
        exec pkg (exec pkg (main okFlags okStore)
          [.listen none, .connect none, .subscribe none]) (feedFrom 0 ms) :=
      exec_append pkg _ _ _
    rw [hrun]
    exact ⟨h.2.1, h.2.2.1, h.1⟩

/-- A run with three messages, and an empty payload after it. -/
theorem per_message_witness :
    Reachable natPkg (run natPkg okFlags okStore fifoSchedule) ∧
    messagesOf (run natPkg okFlags okStore fifoSchedule).trace = [⟨[1, 2]⟩, ⟨[4]⟩, ⟨[5, 6]⟩] ∧
    putsOf (run natPkg okFlags okStore fifoSchedule).trace = [3, 4, 11] ∧
    streaming (exec natPkg (run natPkg okFlags okStore fifoSchedule)
      [.message ⟨[]⟩, .wake]).consumer = true :=
  ⟨⟨okFlags, okStore, fifoSchedule, rfl⟩, by decide, by decide,
    (per_message natPkg _ ⟨okFlags, okStore, fifoSchedule, rfl⟩).2.2.2.2.1
      [.message ⟨[]⟩, .wake] (by decide)⟩

/-- C5, as stated, fails. When the connection fails, `consume` ends having run
`wg.Done` only: neither `partitionConsumer.Close` nor `consumer.Close` is called. When
the subscription fails, it ends having run `consumer.Close` and `wg.Done`:
`partitionConsumer.Close` is not called. -/
theorem teardown_order_counterexample :
    (run natPkg okFlags okStore connectFails).consumer = .done ∧
    connectsOf (run natPkg okFlags okStore connectFails).trace =
      [some "dial tcp: connection refused"] ∧
    teardownOf (run natPkg okFlags okStore connectFails).trace = [.wgDone] ∧
    Event.partitionConsumerClose ∉ (run natPkg okFlags okStore connectFails).trace ∧
    Event.consumerClose ∉ (run natPkg okFlags okStore connectFails).trace ∧
    (run natPkg okFlags okStore subscribeFails).consumer = .done ∧
    subscribesOf (run natPkg okFlags okStore subscribeFails).trace =
      [some "unknown topic or partition"] ∧
    teardownOf (run natPkg okFlags okStore subscribeFails).trace =
      [.consumerClose, .wgDone] := by
  decide

/-- C5, amended. A failed connect makes `consume` return with `wg.Done` deferred; a
failed subscribe makes it return with `consumer.Close` and `wg.Done` deferred. Once an
attempt has failed, `consume` is returning or done, running its deferred calls ends
it, and `partitionConsumer.Close` has not been called. When `consume` is done it ran
`wg.Done` alone after a failed connect, and `consumer.Close` then `wg.Done` after a
failed subscribe. The deferred calls still to run are always a final segment of
`partitionConsumer.Close`, `consumer.Close`, `wg.Done`. -/
theorem teardown_after_failure {T : Type} (pkg : Pkg T) (s : Sys T) (hs : Reachable pkg s) :
    (∀ e, s.consumer = .start →
      (next pkg s (.connect (some e))).consumer = .returning ∧
      (next pkg s (.connect (some e))).defers = [.wgDone]) ∧
    (∀ e, s.consumer = .subscribe →
      (next pkg s (.subscribe (some e))).consumer = .returning ∧
      (next pkg s (.subscribe (some e))).defers = [.consumerClose, .wgDone]) ∧
    ((∃ e, some e ∈ connectsOf s.trace ∨ some e ∈ subscribesOf s.trace) →
      (s.consumer = .returning ∨ s.consumer = .done) ∧
      (∀ e1 e2, (exec pkg s [.runDeferred e1, .runDeferred e2]).consumer = .done) ∧
      .partitionConsumerClose ∉ s.trace) ∧
    (s.consumer = .done →
      (∃ e, connectsOf s.trace = [some e] ∧ subscribesOf s.trace = [] ∧
        teardownOf s.trace = [.wgDone]) ∨
      (∃ e, connectsOf s.trace = [none] ∧ subscribesOf s.trace = [some e] ∧
        teardownOf s.trace = [.consumerClose, .wgDone])) ∧
    s.defers <:+ [.partitionConsumerClose, .consumerClose, .wgDone] := by
  have hi := reachable_inv pkg hs
  have hc := hi.2.2
  refine ⟨?_, ?_, ?_, ?_, ?_⟩
  · intro e h
    have hp : s.proc = none := by
      unfold CInv at hc; simp only [h] at hc; exact hc.1
    simp [next, step, hp, h]
  · intro e h
    have hp : s.proc = none ∧ s.defers = [.consumerClose, .wgDone] := by
      unfold CInv at hc; simp only [h] at hc; exact ⟨hc.1, hc.2.2.1⟩
    simp [next, step, hp.1, hp.2, h]
  · intro h
    obtain ⟨hpc, hm, hf⟩ := cinv_failed hc (Or.inr h)
    refine ⟨hpc.imp (fun h => h.1) (fun h => h.1), ?_, ?_⟩
    · intro e1 e2
      rcases hpc with ⟨h1, hp, hwg, hd⟩ | ⟨h1, hp, hwg, hd⟩
      · obtain ⟨d, ds, hds⟩ := List.exists_cons_of_ne_nil hd
        rw [hds] at hf
        rcases failedShape_defers hf with ⟨rfl, rfl⟩ | ⟨rfl, rfl⟩
        · simp [exec, next, step, hp, h1, hds, runDefer, afterDeferred]
        · simp [exec, next, step, hp, h1, hds, runDefer, afterDeferred]
      · rcases hp with hp | hp <;> simp [exec, next, step, hp, h1, hd]
    · intro hmem
      have h3 := (teardownOf_mem (l := s.trace)).2.2 hmem
      rcases hf with ⟨e, -, -, -, h4⟩ | ⟨e, -, -, -, h4⟩
      · have : Deferred.partitionConsumerClose ∈ teardownOf s.trace ++ s.defers :=
          List.mem_append_left _ h3
        rw [h4] at this
        simp at this
      · have : Deferred.partitionConsumerClose ∈ teardownOf s.trace ++ s.defers :=
          List.mem_append_left _ h3
        rw [h4] at this
        simp at this
  · intro h
    unfold CInv at hc
    simp only [h] at hc
    obtain ⟨-, -, hd, -, hf⟩ := hc
    rw [hd] at hf
    rcases hf with ⟨e, h1, h2, -, h4⟩ | ⟨e, h1, h2, -, h4⟩
    · exact Or.inl ⟨e, h1, h2, by simpa using h4⟩
    · exact Or.inr ⟨e, h1, h2, by simpa using h4⟩
  · unfold CInv at hc
    cases hcons : s.consumer <;> simp only [hcons] at hc
    case notStarted => rw [hc.2.1]; exact List.nil_suffix
    case start => rw [hc.2.2.1]; exact List.nil_suffix
    case subscribe => rw [hc.2.2.1]; exact ⟨[.partitionConsumerClose], rfl⟩
    case recv => rw [hc.2.2.1]
    case send => rw [hc.2.2.1]
    case returning =>
      rcases hc.2.2.2.2 with ⟨e, -, -, -, h4⟩ | ⟨e, -, -, -, h4⟩
      · exact ⟨[.partitionConsumerClose, .consumerClose] ++ teardownOf s.trace, by
          simp [List.append_assoc, h4]⟩
      · exact ⟨[.partitionConsumerClose] ++ teardownOf s.trace, by
          simp [List.append_assoc, h4]⟩
    case done => rw [hc.2.2.1]; exact List.nil_suffix

/-- A run in which the subscription fails. -/
theorem teardown_after_failure_witness :
    Reachable natPkg (run natPkg okFlags okStore subscribeFails) ∧
    (run natPkg okFlags okStore subscribeFails).consumer = .done ∧
    teardownOf (run natPkg okFlags okStore subscribeFails).trace =
      [.consumerClose, .wgDone] ∧
    Event.partitionConsumerClose ∉ (run natPkg okFlags okStore subscribeFails).trace :=
  ⟨⟨okFlags, okStore, subscribeFails, rfl⟩, by decide, by decide,
    ((teardown_after_failure natPkg _ ⟨okFlags, okStore, subscribeFails, rfl⟩).2.2.1
      ⟨"unknown topic or partition", Or.inr (by decide)⟩).2.2⟩

/-- C6 (fatal consumer errors). In every reachable state connect and subscribe have
each been attempted at most once. If one of them failed with error `e`: the error was
logged, nothing was sent on `tqueue` and the channel is empty, no further connect,
subscribe, receive or send of `consume` is enabled, and letting `consume` run its
deferred calls and `main` wake ends the process with code 0 after `wg.Done`. -/
theorem fatal_consumer_errors {T : Type} (pkg : Pkg T) (s : Sys T) (hs : Reachable pkg s) :
    (connectsOf s.trace).length ≤ 1 ∧ (subscribesOf s.trace).length ≤ 1 ∧
    ∀ e, (some e ∈ connectsOf s.trace ∨ some e ∈ subscribesOf s.trace) →
      .logError "consume" e ∈ s.trace ∧ putsOf s.trace = [] ∧ s.tqueue = [] ∧
      (∀ err, step pkg s (.connect err) = none) ∧
      (∀ err, step pkg s (.subscribe err) = none) ∧
      (∀ m, step pkg s (.message m) = none) ∧
      step pkg s .put = none ∧
      ∀ e1 e2,
        (exec pkg s [.runDeferred e1, .runDeferred e2, .wake]).proc = some 0 ∧
        .wgDone ∈ (exec pkg s [.runDeferred e1, .runDeferred e2, .wake]).trace := by
  have hi := reachable_inv pkg hs
  have hc := hi.2.2
  refine ⟨?_, ?_, ?_⟩
  · unfold CInv FailedShape at hc
    cases hcons : s.consumer <;> simp only [hcons] at hc
    case returning => rcases hc.2.2.2.2 with ⟨e, h, -⟩ | ⟨e, h, -⟩ <;> simp [h]
    case done => rcases hc.2.2.2.2 with ⟨e, h, -⟩ | ⟨e, h, -⟩ <;> simp [h]
    all_goals simp [hc]
  · unfold CInv FailedShape at hc
    cases hcons : s.consumer <;> simp only [hcons] at hc
    case returning => rcases hc.2.2.2.2 with ⟨e, -, h, -⟩ | ⟨e, -, h, -⟩ <;> simp [h]
    case done => rcases hc.2.2.2.2 with ⟨e, -, h, -⟩ | ⟨e, -, h, -⟩ <;> simp [h]
    all_goals simp [hc]
  · intro e he
    obtain ⟨hpc, hm, hf⟩ := cinv_failed hc (Or.inr ⟨e, he⟩)
    obtain ⟨hputs, hq⟩ := quiet_of_no_messages pkg hi hm
    have hne : s.consumer ≠ .start ∧ s.consumer ≠ .subscribe ∧ s.consumer ≠ .recv ∧
        ∀ t, s.consumer ≠ .send t := by
      rcases hpc with ⟨h, -⟩ | ⟨h, -⟩ <;> simp [h]
    have hlog : Event.logError "consume" e ∈ s.trace := by
      rcases hf with ⟨e', h1, h2, h3, -⟩ | ⟨e', h1, h2, h3, -⟩
      · rcases he with he | he
        · rw [h1] at he; simp at he; rw [he]; exact h3
        · rw [h2] at he; simp at he
      · rcases he with he | he
        · rw [h1] at he; simp at he
        · rw [h2] at he; simp at he; rw [he]; exact h3
    refine ⟨hlog, hputs, hq, ?_, ?_, ?_, ?_, ?_⟩
    · intro err
      cases h : step pkg s (.connect err) with
      | none => rfl
      | some s' => exact absurd (step_connect pkg h).1 hne.1
    · intro err
      cases h : step pkg s (.subscribe err) with
      | none => rfl
      | some s' => exact absurd (step_subscribe pkg h).1 hne.2.1
    · intro m
      cases h : step pkg s (.message m) with
      | none => rfl
      | some s' => exact absurd (step_message pkg h).1 hne.2.2.1
    · cases h : step pkg s .put with
      | none => rfl
      | some s' =>
        obtain ⟨t, ht, -⟩ := step_put pkg h
        exact absurd ht (hne.2.2.2 t)
    · intro e1 e2
      rcases hpc with ⟨h1, hp, hwg, hd⟩ | ⟨h1, hp, hwg, hd⟩
      · obtain ⟨d, ds, hds⟩ := List.exists_cons_of_ne_nil hd
        rw [hds] at hf
        rcases failedShape_defers hf with ⟨rfl, rfl⟩ | ⟨rfl, rfl⟩
        · simp [exec, next, step, hp, h1, hds, hwg, runDefer, afterDeferred]
        · cases e1 <;>
            simp [exec, next, step, hp, h1, hds, hwg, runDefer, afterDeferred, logErr]
      · have hw : Event.wgDone ∈ s.trace := by
          have : Deferred.wgDone ∈ teardownOf s.trace := by
            rw [hd] at hf
            rcases hf with ⟨_, -, -, -, h4⟩ | ⟨_, -, -, -, h4⟩ <;>
              · simp only [List.append_nil] at h4
                rw [h4]
                simp
          exact mem_teardownOf this
        rcases hp with hp | hp
        · simp [exec, next, step, hp, h1, hd, hwg, hw]
        · simp [exec, next, step, hp, h1, hd, hwg, hw]

/-- A run in which the connection is refused. -/
theorem fatal_consumer_errors_witness :
    Reachable natPkg
      (run natPkg okFlags okStore [.listen none, .connect (some "refused"),
        .request getRequest]) ∧
    (exec natPkg (run natPkg okFlags okStore [.listen none, .connect (some "refused"),
        .request getRequest]) [.runDeferred none, .runDeferred none, .wake]).proc = some 0 :=
  ⟨⟨okFlags, okStore, _, rfl⟩,
    ((fatal_consumer_errors natPkg _ ⟨okFlags, okStore, [.listen none,
        .connect (some "refused"), .request getRequest], rfl⟩).2.2 "refused"
      (Or.inl (by decide))).2.2.2.2.2.2.2 none none |>.1⟩

/-- C7 (fatal startup errors). If the flags pass the checks of `main` and a step of the
fetch fails, then whatever is scheduled the process has ended with code 1, `servecontent`
and `consume` were never started, no request is handled and the listener was never
opened. Conversely, if the server or the consumer was started, the fetch succeeded and
`syncstaticdata` ran to its end before `go servecontent()`. -/
theorem fatal_startup_errors {T : Type} (pkg : Pkg T) (flags : Flags) (o : ObjectStore)
    (acts : List Action) :
    (flags.version = false → flags.broker ≠ "" → fetchFails o = true →
      (run pkg flags o acts).proc = some 1 ∧
      (run pkg flags o acts).server = .notStarted ∧
      (run pkg flags o acts).consumer = .notStarted ∧
      (run pkg flags o acts).handlers = [] ∧
      .exit 1 ∈ (run pkg flags o acts).trace ∧
      .goServecontent ∉ (run pkg flags o acts).trace ∧
      (∀ t, .goConsume t ∉ (run pkg flags o acts).trace) ∧
      (∀ a, .listenAndServe a ∉ (run pkg flags o acts).trace)) ∧
    ((run pkg flags o acts).server ≠ .notStarted ∨
      (run pkg flags o acts).consumer ≠ .notStarted ∨
      .goServecontent ∈ (run pkg flags o acts).trace ∨
      (∃ t, .goConsume t ∈ (run pkg flags o acts).trace) ∨
      (∃ a, .listenAndServe a ∈ (run pkg flags o acts).trace) →
      fetchFails o = false ∧ (syncstaticdata (T := T) o).2 = none ∧
      ∃ rest, (run pkg flags o acts).trace =
        (syncstaticdata o).1 ++
          [.goServecontent, .wgAdd 1, .goConsume "trafficdata", .wgWait] ++ rest) := by
  have hended : ∀ (t : List (Event T)) (code : Nat),
      exec pkg (Sys.ended flags t code) acts = Sys.ended flags t code :=
    fun t code => exec_ended pkg (by simp [Sys.ended]) acts
  rcases main_cases (T := T) flags o with ⟨t, code, hm, h1, h2, h3, hcode⟩ | ⟨hff, hn, htr⟩
  · have hrun : run pkg flags o acts = Sys.ended flags t code := by
      unfold run; rw [hm, hended]
    refine ⟨?_, ?_⟩
    · intro hv hb _
      rw [hrun, hcode hv hb]
      simp [Sys.ended, h1, h2, h3]
    · intro h
      rw [hrun] at h
      simp [Sys.ended, h1, h2, h3] at h
  · refine ⟨?_, ?_⟩
    · intro _ _ hf
      rw [hff] at hf
      cases hf
    · intro _
      obtain ⟨es, hes⟩ := exec_trace pkg (main (T := T) flags o) acts
      exact ⟨hff, hn, es, by unfold run; rw [hes, htr]⟩

/-- The bucket does not exist; and a run in which the server was started. -/
theorem fatal_startup_errors_witness :
    (run natPkg okFlags noBucket [.listen none, .request getRequest, .connect none]).proc =
      some 1 ∧
    (run natPkg okFlags noBucket
      [.listen none, .request getRequest, .connect none]).server = .notStarted ∧
    (run natPkg okFlags okStore [.listen none]).server = .listening ∧
    fetchFails okStore = false :=
  ⟨((fatal_startup_errors natPkg okFlags noBucket
      [.listen none, .request getRequest, .connect none]).1
      (by decide) (by decide) (by decide)).1,
   ((fatal_startup_errors natPkg okFlags noBucket
      [.listen none, .request getRequest, .connect none]).1
      (by decide) (by decide) (by decide)).2.1,
   by decide,
   ((fatal_startup_errors natPkg okFlags okStore [.listen none]).2
      (Or.inl (by decide))).1⟩

/-- C8, evaluated where it fails: the object was downloaded and opened, the file does
not decode, the process ends with code 1 and `os.Remove` never runs, whatever is
scheduled. When the file decodes, `os.Remove` runs. -/
theorem tempfile_left_on_decode_failure (acts : List Action) :
    Event.fGetObject "aarhus" "route_metrics_data.json" "./rmd.json" ∈
      (run natPkg okFlags badJson acts).trace ∧
    Event.osOpen "./rmd.json" ∈ (run natPkg okFlags badJson acts).trace ∧
    Event.osRemove "./rmd.json" ∉ (run natPkg okFlags badJson acts).trace ∧
    (run natPkg okFlags badJson acts).proc = some 1 ∧
    Event.osRemove "./rmd.json" ∈ (run natPkg okFlags okStore []).trace := by
  have h : run natPkg okFlags badJson acts = main okFlags badJson :=
    exec_ended natPkg (by decide) acts
  rw [h]
  decide

/-- C9 (delivery response). For every request and record the handler answers 200 with
exactly the two headers `Access-Control-Allow-Origin: *` and
`Content-Type: application/json` and the JSON encoding of the record as body, whatever
the request is. In every reachable state every received record was answered with such
a response, and every response sent is such a response for one record received by
that request. -/
theorem delivery_response {T : Type} (pkg : Pkg T) (s : Sys T) (hs : Reachable pkg s) :
    (∀ r t, dataHandler pkg r t =
      { status := 200,
        header := [("Access-Control-Allow-Origin", "*"), ("Content-Type", "application/json")],
        body := pkg.jsonEncode t }) ∧
    (∀ i t, .take i t ∈ s.trace → ∃ resp, .respond i resp ∈ s.trace ∧
      resp.status = 200 ∧ ("Access-Control-Allow-Origin", "*") ∈ resp.header ∧
      ("Content-Type", "application/json") ∈ resp.header ∧ resp.body = pkg.jsonEncode t) ∧
    (∀ i resp, .respond i resp ∈ s.trace → ∃ t, .take i t ∈ s.trace ∧
      resp.status = 200 ∧ resp.body = pkg.jsonEncode t) := by
  have hd : ∀ r t, dataHandler pkg r t =
      { status := 200,
        header := [("Access-Control-Allow-Origin", "*"), ("Content-Type", "application/json")],
        body := pkg.jsonEncode t } := by
    intro r t
    simp [dataHandler, ResponseWriter.fresh, ResponseWriter.set, ResponseWriter.write,
      ResponseWriter.finish]
  have hq := (reachable_inv pkg hs).1
  refine ⟨hd, ?_, ?_⟩
  · intro i t hi
    obtain ⟨r, hr⟩ := hq.answered i t hi
    exact ⟨_, hr, by simp [hd]⟩
  · intro i resp hi
    obtain ⟨r, t, ht, rfl⟩ := hq.responses i resp hi
    exact ⟨t, ht, by simp [hd]⟩

/-- A run with two requests served. -/
theorem delivery_response_witness :
    Reachable natPkg (run natPkg okFlags okStore fifoSchedule) ∧
    Event.take 1 3 ∈ (run natPkg okFlags okStore fifoSchedule).trace ∧
    ∃ resp, Event.respond 1 resp ∈ (run natPkg okFlags okStore fifoSchedule).trace ∧
      resp.status = 200 ∧ ("Access-Control-Allow-Origin", "*") ∈ resp.header ∧
      ("Content-Type", "application/json") ∈ resp.header ∧
      resp.body = natPkg.jsonEncode 3 :=
  ⟨⟨okFlags, okStore, fifoSchedule, rfl⟩, by decide,
    (delivery_response natPkg _ ⟨okFlags, okStore, fifoSchedule, rfl⟩).2.1 1 3
      (by decide)⟩

/-- C10 (streaming is absorbing). From a reachable state in which `consume` is in its
message loop, every schedule leaves it in the loop: no deferred call has run, the
process has not ended, and neither `wg.Wait` returning nor a deferred call is enabled.
In every reachable state, if `consumer.Close`, `partitionConsumer.Close` or `wg.Done`
was called, then connect or subscribe failed, no subscription ever succeeded and no
message was ever received. -/
theorem streaming_absorbing {T : Type} (pkg : Pkg T) (s : Sys T) (hs : Reachable pkg s) :
    (streaming s.consumer = true → ∀ acts,
      streaming (exec pkg s acts).consumer = true ∧
      teardownOf (exec pkg s acts).trace = [] ∧
      (exec pkg s acts).proc = none ∧
      step pkg (exec pkg s acts) .wake = none ∧
      ∀ err, step pkg (exec pkg s acts) (.runDeferred err) = none) ∧
    (.consumerClose ∈ s.trace ∨ .partitionConsumerClose ∈ s.trace ∨ .wgDone ∈ s.trace →
      (∃ e, connectsOf s.trace = [some e] ∨ subscribesOf s.trace = [some e]) ∧
      none ∉ subscribesOf s.trace ∧ messagesOf s.trace = []) := by
  refine ⟨?_, ?_⟩
  · intro hst acts
    have hst' := streaming_exec pkg acts hst
    have hi := reachable_inv pkg (reachable_exec pkg hs acts)
    obtain ⟨hp, hwg, -, -, -, htd⟩ := cinv_streaming hi.2.2 hst'
    refine ⟨hst', htd, hp, ?_, ?_⟩
    · cases h : step pkg (exec pkg s acts) .wake with
      | none => rfl
      | some s' =>
        obtain ⟨h0, -⟩ := step_wake pkg h
        rw [hwg] at h0
        cases h0
    · intro err
      cases h : step pkg (exec pkg s acts) (.runDeferred err) with
      | none => rfl
      | some s' =>
        obtain ⟨d, ds, h0, -⟩ := step_runDeferred pkg h
        rw [h0] at hst'
        cases hst'
  · intro h
    have hi := reachable_inv pkg hs
    have hne : teardownOf s.trace ≠ [] := by
      intro h0
      have hm := teardownOf_mem (l := s.trace)
      rw [h0] at hm
      rcases h with h | h | h
      · exact absurd (hm.2.1 h) (by simp)
      · exact absurd (hm.2.2 h) (by simp)
      · exact absurd (hm.1 h) (by simp)
    obtain ⟨-, hm, hf⟩ := cinv_failed hi.2.2 (Or.inl hne)
    rcases hf with ⟨e, h1, h2, -, -⟩ | ⟨e, h1, h2, -, -⟩
    · exact ⟨⟨e, Or.inl h1⟩, by simp [h2], hm⟩
    · exact ⟨⟨e, Or.inr h2⟩, by simp [h2], hm⟩

/-- After three messages `consume` is at the head of the loop and stays in it. -/
theorem streaming_absorbing_witness :
    Reachable natPkg (run natPkg okFlags okStore fifoSchedule) ∧
    (run natPkg okFlags okStore fifoSchedule).consumer = .recv ∧
    (exec natPkg (run natPkg okFlags okStore fifoSchedule)
      [.runDeferred none, .wake, .message ⟨[7]⟩]).proc = none :=
  ⟨⟨okFlags, okStore, fifoSchedule, rfl⟩, by decide,
    ((streaming_absorbing natPkg _ ⟨okFlags, okStore, fifoSchedule, rfl⟩).1 (by decide)
      [.runDeferred none, .wake, .message ⟨[7]⟩]).2.2.1⟩

end MappingAgent
